import Mathlib

/-!
Verification of the incremental face scan-and-cluster engine of hebPhotoSort
(server face service: cache store, change detector, bounded task runner with
cooperative cancellation, online nearest-centroid clustering, scan
orchestration).

Modelling conventions, shared by all definitions below:

* Embeddings (face descriptors) are fixed-length numeric vectors; we model
  them as functions `Fin d → ℚ` for a dimension parameter `d`, idealizing
  IEEE floats by exact rationals.
* The source compares Euclidean distances (`faceapi.euclideanDistance`,
  a square root of a sum of squares) with `<` against the running best and
  with `≤` against `FACE_DISTANCE_THRESHOLD`.  Since the real square root is
  strictly monotone on nonnegatives, those comparisons are equivalent to the
  same comparisons between squared distances and the squared threshold; the
  embedding therefore works with squared distances throughout, which keeps
  every predicate decidable and every definition executable.
* JavaScript `Set` objects (cluster `paths`, `sampleThumbnails`, the
  `cachedPaths` working set of `categorizeFiles`) are modelled as
  insertion-ordered duplicate-free lists; `Set.add` is `setAdd`,
  `Set.delete` is `List.erase`, `Array.from` is the identity.
* JavaScript objects used as string-keyed maps (the `files` field of the
  cache document) are modelled as association lists with `insertEntry`
  (replace-in-place on an existing key, append otherwise) and
  `lookupEntry`.
* Inert carried-through metadata (bounding boxes, EXIF fields, timing
  fields) does not influence any claimed behaviour and is elided from the
  records.
* `Array.prototype.sort` with the comparator `(a, b) => b.count - a.count`
  is a stable sort by non-increasing `count`; it is modelled by
  `List.insertionSort` with the relation `fun a b => b.count ≤ a.count`,
  which is likewise stable, hence the same function on this comparator.
* Asynchronous execution is modelled by explicit sequencing: the scan
  orchestrator is a deterministic function, and cooperative cancellation is
  an explicit `cancelAfter` parameter giving the number of queued tasks that
  complete before the abort signal fires (the limiter resolves every later
  task with a skipped marker, so those files are never processed).  The
  task-runner itself is additionally modelled as an explicit state machine
  over submit/finish/abort events for the cancellation claims.
-/

namespace HebPhotoSort

/-! ## Constants (source: `const MAX_SAMPLES = 96`, `const MAX_RESULTS_PER_FACE = 96`,
`const FACE_DISTANCE_THRESHOLD = 0.52`, `const CACHE_VERSION = 1`). -/

def MAX_SAMPLES : Nat := 96

def MAX_RESULTS_PER_FACE : Nat := 96

def FACE_DISTANCE_THRESHOLD : ℚ := 52 / 100

def CACHE_VERSION : Int := 1

/-! ## Embedding vectors and Euclidean distance -/

/-- A face descriptor: fixed-length numeric vector of dimension `d`. -/
abbrev Vec (d : Nat) := Fin d → ℚ

/-- Squared Euclidean distance between two descriptors.  The source computes
`faceapi.euclideanDistance`, i.e. the square root of this quantity; all the
source ever does with distances is compare them (`<` against the running
best, `≤` against the threshold), and the square root is strictly monotone,
so comparing squares against squares is an exact model. -/
def distSq {d : Nat} (a b : Vec d) : ℚ := ∑ i, (a i - b i) ^ 2

/-- The arithmetic mean of a list of descriptors, computed pointwise.
Mirrors the centroid recomputation loop of `assignToClusters`
(`sum[i] / cluster.descriptors.length`). -/
def centroidOf {d : Nat} (l : List (Vec d)) : Vec d :=
  fun i => (l.map (fun v => v i)).sum / (l.length : ℚ)

/-! ## Face samples and clusters -/

/-- One detection as produced by `detectFacesInFile` / rehydrated from the
cache: descriptor plus source path and thumbnail references.  The bounding
box is carried-through metadata not used by clustering and is elided. -/
structure FaceSample (d : Nat) where
  descriptor : Vec d
  path : String
  thumbnail : String
  faceThumb : Option String
deriving DecidableEq

/-- An in-memory cluster, as built by `assignToClusters`:
`centroid`, the list of member `descriptors`, the `paths` and
`sampleThumbnails` Sets (insertion-ordered, duplicate-free lists here), and
the first face thumbnail retained as the group avatar. -/
structure Cluster (d : Nat) where
  centroid : Vec d
  descriptors : List (Vec d)
  paths : List String
  sampleThumbnails : List String
  faceThumb : Option String
deriving DecidableEq

instance {d : Nat} : Inhabited (Cluster d) :=
  ⟨⟨fun _ => 0, [], [], [], none⟩⟩

/-- `Set.add`: append iff not already present (JS Sets keep insertion
order and ignore re-insertion of an existing element). -/
def setAdd (s : List String) (x : String) : List String :=
  if x ∈ s then s else s ++ [x]

/-- The best-match loop of `assignToClusters`: walk the cluster list with
index `i`, keeping the first index whose (squared) distance is strictly
smaller than the best seen so far (`bestDist` starts at positive infinity,
modelled by the `none` accumulator). -/
def bestLoop {d : Nat} (desc : Vec d) :
    List (Cluster d) → Nat → Option (Nat × ℚ) → Option (Nat × ℚ)
  | [], _, best => best
  | c :: rest, i, best =>
    let dist := distSq desc c.centroid
    let best' := match best with
      | none => some (i, dist)
      | some (bi, bd) => if dist < bd then some (i, dist) else some (bi, bd)
    bestLoop desc rest (i + 1) best'

/-- `bestIdx` / `bestDist` of `assignToClusters` (squared form), `none`
when the cluster list is empty (`bestIdx === -1`). -/
def bestMatch {d : Nat} (clusters : List (Cluster d)) (desc : Vec d) :
    Option (Nat × ℚ) :=
  bestLoop desc clusters 0 none

lemma bestLoop_cons_none {d : Nat} (desc : Vec d) (c : Cluster d)
    (rest : List (Cluster d)) (i : Nat) :
    bestLoop desc (c :: rest) i none =
      bestLoop desc rest (i + 1) (some (i, distSq desc c.centroid)) := rfl

lemma bestLoop_cons_some {d : Nat} (desc : Vec d) (c : Cluster d)
    (rest : List (Cluster d)) (i bi : Nat) (bd : ℚ) :
    bestLoop desc (c :: rest) i (some (bi, bd)) =
      bestLoop desc rest (i + 1)
        (if distSq desc c.centroid < bd
         then some (i, distSq desc c.centroid)
         else some (bi, bd)) := rfl

/-- The mutation applied to the matched cluster: push the descriptor, add
path and thumbnail to the Sets, keep the first face thumbnail as avatar,
and recompute the centroid as the full arithmetic mean of the (extended)
member descriptors. -/
def addToCluster {d : Nat} (c : Cluster d) (s : FaceSample d) : Cluster d :=
  let descs := c.descriptors ++ [s.descriptor]
  { centroid := centroidOf descs
    descriptors := descs
    paths := setAdd c.paths s.path
    sampleThumbnails := setAdd c.sampleThumbnails s.thumbnail
    faceThumb := match c.faceThumb with
      | some t => some t
      | none => s.faceThumb }

/-- The freshly created cluster of the no-match branch: sole member is the
sample, centroid is (a copy of) its descriptor. -/
def newCluster {d : Nat} (s : FaceSample d) : Cluster d :=
  { centroid := s.descriptor
    descriptors := [s.descriptor]
    paths := [s.path]
    sampleThumbnails := [s.thumbnail]
    faceThumb := s.faceThumb }

/-- `assignToClusters(clusters, faceSample)` (the in-place mutation is made
explicit by returning the updated list).  If some cluster is within the
threshold of the sample it is updated in place; otherwise a new singleton
cluster is appended. -/
def assignToClusters {d : Nat} (clusters : List (Cluster d))
    (s : FaceSample d) : List (Cluster d) :=
  match bestMatch clusters s.descriptor with
  | some (bi, bd) =>
    if bd ≤ FACE_DISTANCE_THRESHOLD ^ 2 then
      clusters.set bi (addToCluster (clusters.getD bi default) s)
    else
      clusters ++ [newCluster s]
  | none => clusters ++ [newCluster s]

/-- Feed a list of samples into the cluster list one by one (the
`forEach` loops of `scanFaces`). -/
def assignAll {d : Nat} (clusters : List (Cluster d))
    (samples : List (FaceSample d)) : List (Cluster d) :=
  samples.foldl assignToClusters clusters

/-! ## Cluster summaries (`clustersToFaces`) -/

/-- One face group of the result summary. -/
structure FaceGroup where
  id : String
  label : String
  count : Nat
  thumbnail : String
  faceThumb : String
  paths : List String
deriving DecidableEq

/-- The per-cluster record built inside `clustersToFaces`:
`paths` truncated to `MAX_RESULTS_PER_FACE`, `count` the full Set size,
thumbnail falling back from the sample-thumbnail Set to the first path. -/
def mkFaceGroup {d : Nat} (idx : Nat) (c : Cluster d) : FaceGroup :=
  let paths := c.paths.take MAX_RESULTS_PER_FACE
  let thumb := match c.sampleThumbnails with
    | t :: _ => t
    | [] => paths.headD ""
  { id := "face-" ++ toString (idx + 1)
    label := "פנים #" ++ toString (idx + 1)
    count := c.paths.length
    thumbnail := thumb
    faceThumb := (c.faceThumb).getD thumb
    paths := paths }

/-- `clustersToFaces(clusters)`: map each cluster to a display group, then
stable-sort by `count` descending (`faces.sort((a, b) => b.count - a.count)`). -/
def clustersToFaces {d : Nat} (clusters : List (Cluster d)) : List FaceGroup :=
  let faces := (clusters.enum).map (fun p => mkFaceGroup p.1 p.2)
  faces.insertionSort (fun a b => b.count ≤ a.count)

/-! ## Cache document and cache store -/

/-- One cached detection (`faces` array element of a cache entry):
descriptor stored as a plain array plus thumbnail references; the bounding
box is inert metadata and elided. -/
structure CachedFace (d : Nat) where
  descriptor : Vec d
  thumbnail : String
  faceThumb : Option String
deriving DecidableEq

/-- One per-file cache entry.  `mtime` is `stat.mtimeMs` at scan time; the
other metadata fields (sizes, EXIF, timings) are carried through but never
read by the engine and are elided. -/
structure FileCacheEntry (d : Nat) where
  mtime : ℚ
  faces : List (CachedFace d)
deriving DecidableEq

/-- The `files` map of the cache document: normalized path to entry. -/
abbrev CacheMap (d : Nat) := List (String × FileCacheEntry d)

/-- The persisted cache document (`version`, `files`; `lastScan` is
informational only and elided). -/
structure CacheDoc (d : Nat) where
  version : Int
  files : CacheMap d
deriving DecidableEq

/-- Path normalization used for cache keys: `file.replace(/\\/g, '/')`. -/
def normalizePath (p : String) : String :=
  String.map (fun c => if c = '\\' then '/' else c) p

/-- Lookup in a string-keyed object modelled as an association list. -/
def lookupEntry {d : Nat} (m : CacheMap d) (k : String) :
    Option (FileCacheEntry d) :=
  (m.find? (fun kv => kv.1 == k)).map (fun kv => kv.2)

/-- Assignment `obj[k] = v` on a string-keyed object: replace the value in
place if the key exists, append the key otherwise. -/
def insertEntry {d : Nat} (m : CacheMap d) (k : String)
    (v : FileCacheEntry d) : CacheMap d :=
  match m with
  | [] => [(k, v)]
  | kv :: rest =>
    if kv.1 == k then (k, v) :: rest else kv :: insertEntry rest k v

/-- What `loadFaceCache` can find on disk: no cache file, a file whose
contents fail `JSON.parse`, or a parsed document. -/
inductive CacheFileState (d : Nat) where
  | missing
  | malformed
  | parsed (doc : CacheDoc d)
deriving DecidableEq

/-- `loadFaceCache`: missing file, parse failure and version mismatch all
yield `none` (`null` in the source, caught exceptions included); only a
parsed document carrying the current `CACHE_VERSION` is returned.  The
function is total: no input makes it raise. -/
def loadFaceCache {d : Nat} : CacheFileState d → Option (CacheDoc d)
  | .missing => none
  | .malformed => none
  | .parsed doc =>
    if doc.version ≠ CACHE_VERSION then none else some doc

/-- `saveFaceCache`: the document written to disk from an in-memory files
map (the `lastScan` timestamp is informational and elided). -/
def saveFaceCache {d : Nat} (files : CacheMap d) : CacheDoc d :=
  { version := CACHE_VERSION, files := files }

/-! ## The file system as seen by one scan -/

/-- The external world fixed for the duration of a scan: the enumerated
media files (in `collectMedia` order), their modification times, and the
detector results per file, each as association lists on the path. -/
structure FS (d : Nat) where
  mediaFiles : List String
  mtimes : List (String × ℚ)
  detections : List (String × List (FaceSample d))
deriving DecidableEq

/-- `getFileMtime`: `stat.mtimeMs`, and `0` when `stat` fails (the file is
absent from the `mtimes` table). -/
def getFileMtime {d : Nat} (fs : FS d) (p : String) : ℚ :=
  ((fs.mtimes.find? (fun kv => kv.1 == p)).map (fun kv => kv.2)).getD 0

/-- `detectFacesInFile`: the detector result for a file (empty when the
detector finds nothing or fails — every failure path of the source returns
`[]`). -/
def detectFacesInFile {d : Nat} (fs : FS d) (p : String) :
    List (FaceSample d) :=
  ((fs.detections.find? (fun kv => kv.1 == p)).map (fun kv => kv.2)).getD []

/-- Well-formedness of the detector table: `detectFacesInFile` stamps every
result with `path: filePath`, so each sample's `path` field is the file it
came from. -/
def DetectWF {d : Nat} (fs : FS d) : Prop :=
  ∀ kv ∈ fs.detections, ∀ s ∈ kv.2, s.path = kv.1

instance {d : Nat} (fs : FS d) : Decidable (DetectWF fs) := by
  unfold DetectWF; infer_instance

/-! ## Change detector (`categorizeFiles`) -/

/-- Result of `categorizeFiles`: unchanged cached files (original path with
their entry), files to (re)scan, and cache keys of files no longer on
disk. -/
structure Categorized (d : Nat) where
  cached : List (String × FileCacheEntry d)
  toScan : List String
  removed : List String
deriving DecidableEq

/-- The enumeration loop of `categorizeFiles`: for each media file look up
its normalized path in the cache; with an entry, an exact `mtime` match
makes it `cached` and any mismatch `toScan`, and either way the key is
deleted from the working set of cache keys; without an entry it is
`toScan`.  Keys surviving the loop are the `removed` list. -/
def categorizeGo {d : Nat} (fs : FS d) (cacheFiles : CacheMap d) :
    List String → List (String × FileCacheEntry d) → List String →
    List String → Categorized d
  | [], cachedAcc, toScanAcc, cachedPaths =>
    ⟨cachedAcc, toScanAcc, cachedPaths⟩
  | f :: rest, cachedAcc, toScanAcc, cachedPaths =>
    let np := normalizePath f
    match lookupEntry cacheFiles np with
    | some e =>
      if getFileMtime fs f = e.mtime then
        categorizeGo fs cacheFiles rest (cachedAcc ++ [(f, e)]) toScanAcc
          (cachedPaths.erase np)
      else
        categorizeGo fs cacheFiles rest cachedAcc (toScanAcc ++ [f])
          (cachedPaths.erase np)
    | none =>
      categorizeGo fs cacheFiles rest cachedAcc (toScanAcc ++ [f]) cachedPaths

/-- `categorizeFiles(mediaFiles, cache)`. -/
def categorizeFiles {d : Nat} (fs : FS d) (cache : Option (CacheDoc d)) :
    Categorized d :=
  let cacheFiles := (cache.map (fun c => c.files)).getD []
  categorizeGo fs cacheFiles fs.mediaFiles [] [] (cacheFiles.map (fun kv => kv.1))

/-! ## Scan orchestrator (`scanFaces`) -/

/-- The cache entry written for a processed file: current `mtime` and the
detections truncated to `MAX_SAMPLES` (descriptors stored as plain
arrays — an identity round trip in this model). -/
def toCachedFace {d : Nat} (s : FaceSample d) : CachedFace d :=
  ⟨s.descriptor, s.thumbnail, s.faceThumb⟩

/-- Rebuild a face sample from a cached one during rehydration: the
descriptor, thumbnails, and the enumerated file path. -/
def rehydrateFace {d : Nat} (filePath : String) (cf : CachedFace d) :
    FaceSample d :=
  ⟨cf.descriptor, filePath, cf.thumbnail, cf.faceThumb⟩

/-- The `newCacheFiles[normalizedPath] = { mtime, ..., faces }` record of
the per-file scan task. -/
def mkFileEntry {d : Nat} (fs : FS d) (f : String) : FileCacheEntry d :=
  { mtime := getFileMtime fs f
    faces := ((detectFacesInFile fs f).take MAX_SAMPLES).map toCachedFace }

/-- The rehydration loop over unchanged cached files: re-store each entry
under its normalized path and feed its cached faces into the clusters. -/
def rehydrateCached {d : Nat} (cached : List (String × FileCacheEntry d))
    (st : CacheMap d × List (Cluster d)) : CacheMap d × List (Cluster d) :=
  cached.foldl
    (fun st fe =>
      (insertEntry st.1 (normalizePath fe.1) fe.2,
       assignAll st.2 (fe.2.faces.map (rehydrateFace fe.1))))
    st

/-- The body of one scan task: detect, write the cache entry, feed the
(truncated) detections into the clusters. -/
def processFile {d : Nat} (fs : FS d) (st : CacheMap d × List (Cluster d))
    (f : String) : CacheMap d × List (Cluster d) :=
  let faces := detectFacesInFile fs f
  (insertEntry st.1 (normalizePath f) (mkFileEntry fs f),
   assignAll st.2 (faces.take MAX_SAMPLES))

/-- `cacheStats` of the scan result. -/
structure ScanStats where
  cached : Nat
  scanned : Nat
  removed : Nat
deriving DecidableEq

/-- The scan result.  `savedFiles` is the `files` map of the last cache
document written to disk (`none` when the empty-directory early return
skips saving), and `processedFiles` instruments which files actually had
their detector task run (everything else was served from cache or skipped
by cancellation). -/
structure ScanOutcome (d : Nat) where
  faces : List FaceGroup
  totalFiles : Nat
  groupCount : Nat
  cancelled : Bool
  cacheStats : Option ScanStats
  savedFiles : Option (CacheMap d)
  processedFiles : List String
deriving DecidableEq

/-- The `newCacheFiles` starting point: a copy of the loaded cache's
`files` map, or an empty object on a cold start
(`existingCache?.files ? { ...existingCache.files } : {}`). -/
def baseFiles {d : Nat} (existingCache : Option (CacheDoc d)) : CacheMap d :=
  ((existingCache.map (fun c => c.files))).getD []

/-- The files whose scan task actually runs.  `cancelAfter = some k` means
the abort signal fires after `k` completed tasks, so the limiter resolves
every remaining queued task with the skipped marker and only the first `k`
of `toScan` are processed; `cancelAfter = none` is an uncancelled run that
processes all of `toScan`. -/
def toRunFiles {d : Nat} (fs : FS d) (existingCache : Option (CacheDoc d)) :
    Option Nat → List String
  | none => (categorizeFiles fs existingCache).toScan
  | some k => (categorizeFiles fs existingCache).toScan.take k

/-- The in-memory cache map and cluster list after the whole scanning
phase: rehydrate the unchanged cached entries over `baseFiles`, then run
the per-file task for each file that is actually processed. -/
def scanState {d : Nat} (fs : FS d) (existingCache : Option (CacheDoc d))
    (cancelAfter : Option Nat) : CacheMap d × List (Cluster d) :=
  (toRunFiles fs existingCache cancelAfter).foldl (processFile fs)
    (rehydrateCached (categorizeFiles fs existingCache).cached
      (baseFiles existingCache, []))

/-- Whether the run ends through the cancellation branch: the signal fired
while some queued task had not run yet. -/
def scanCancelled {d : Nat} (fs : FS d)
    (existingCache : Option (CacheDoc d)) : Option Nat → Bool
  | none => false
  | some k => decide (k < (categorizeFiles fs existingCache).toScan.length)

/-- `scanFaces(sourcePath, onProgress, { concurrency, signal })`, as a
deterministic function of the file system, the loaded cache, and the
cancellation schedule (see `toRunFiles`).  An empty enumeration returns
the empty summary before the cache is ever loaded or saved.  Otherwise the
cache diff is computed, cached entries are rehydrated into the clusters,
the remaining files are processed, and the final cache map is saved —
both on cancellation and on normal completion.  Progress events are
fire-and-forget and do not influence the state, so they are not
modelled; `processedFiles` instruments which files had their detector task
run. -/
def scanFaces {d : Nat} (fs : FS d) (existingCache : Option (CacheDoc d))
    (cancelAfter : Option Nat) : ScanOutcome d :=
  if fs.mediaFiles = [] then
    { faces := [], totalFiles := 0, groupCount := 0, cancelled := false
      cacheStats := none, savedFiles := none, processedFiles := [] }
  else
    { faces := clustersToFaces (scanState fs existingCache cancelAfter).2
      totalFiles := fs.mediaFiles.length
      groupCount := (clustersToFaces (scanState fs existingCache cancelAfter).2).length
      cancelled := scanCancelled fs existingCache cancelAfter
      cacheStats := some
        { cached := (categorizeFiles fs existingCache).cached.length
          scanned :=
            if scanCancelled fs existingCache cancelAfter
            then (toRunFiles fs existingCache cancelAfter).length
            else (categorizeFiles fs existingCache).toScan.length
          removed := (categorizeFiles fs existingCache).removed.length }
      savedFiles := some (scanState fs existingCache cancelAfter).1
      processedFiles := toRunFiles fs existingCache cancelAfter }

/-! ## Bounded task runner (`createLimiter`) -/

/-- Status of one submitted task: waiting in the FIFO queue, currently
executing, finished, or resolved with the `{ skipped: true }` marker. -/
inductive TaskStatus where
  | queued
  | running
  | done
  | skipped
deriving DecidableEq

/-- Limiter state: the concurrency `limit`, whether the abort signal has
fired, and the status of every submitted task in submission order (the
FIFO queue is exactly the `queued` entries in order). -/
structure LimiterState where
  limit : Nat
  cancelled : Bool
  tasks : List TaskStatus
deriving DecidableEq

/-- Number of currently running tasks (the `active` counter). -/
def activeCount (s : LimiterState) : Nat :=
  s.tasks.countP (fun t => t == TaskStatus.running)

/-- `clearQueue`: resolve every queued task with the skipped marker. -/
def clearQueue (s : LimiterState) : LimiterState :=
  { s with
    tasks := s.tasks.map
      (fun t => if t = TaskStatus.queued then TaskStatus.skipped else t) }

/-- `runNext`: when cancelled, clear the queue; otherwise admit the first
queued task if a slot is free. -/
def runNext (s : LimiterState) : LimiterState :=
  if s.cancelled then clearQueue s
  else if activeCount s < s.limit then
    match s.tasks.findIdx? (fun t => t == TaskStatus.queued) with
    | some i => { s with tasks := s.tasks.set i TaskStatus.running }
    | none => s
  else s

/-- External events driving the limiter: a new submission, the abort
signal, or completion of the running task `i`. -/
inductive LimiterEvent where
  | submit
  | abort
  | finish (i : Nat)
deriving DecidableEq

/-- One limiter transition.  `submit` resolves immediately with the
skipped marker when already cancelled, otherwise enqueues and calls
`runNext`; `abort` sets the flag and clears the queue (the abort
listener); `finish i` marks a running task done and calls `runNext`
(its `finally` handler). -/
def limiterStep (s : LimiterState) (e : LimiterEvent) : LimiterState :=
  match e with
  | .submit =>
    if s.cancelled then { s with tasks := s.tasks ++ [TaskStatus.skipped] }
    else runNext { s with tasks := s.tasks ++ [TaskStatus.queued] }
  | .abort => clearQueue { s with cancelled := true }
  | .finish i =>
    if s.tasks.get? i = some TaskStatus.running then
      runNext { s with tasks := s.tasks.set i TaskStatus.done }
    else s

/-- The limiter created by `createLimiter(limit, signal)` before any
event. -/
def limiterInit (limit : Nat) : LimiterState :=
  { limit := limit, cancelled := false, tasks := [] }

/-- Run the limiter over a whole event trace. -/
def limiterRun (limit : Nat) (es : List LimiterEvent) : LimiterState :=
  es.foldl limiterStep (limiterInit limit)

/-! ## Basic lemmas about the association-list cache map -/

lemma lookupEntry_nil {d : Nat} (k : String) :
    lookupEntry ([] : CacheMap d) k = none := rfl

lemma lookupEntry_cons {d : Nat} (kv : String × FileCacheEntry d)
    (rest : CacheMap d) (k : String) :
    lookupEntry (kv :: rest) k =
      if kv.1 = k then some kv.2 else lookupEntry rest k := by
  unfold lookupEntry
  by_cases h : kv.1 = k
  · rw [List.find?_cons_of_pos _ (by simpa using h)]; simp [h]
  · rw [List.find?_cons_of_neg _ (by simpa using h)]; simp [h]

lemma insertEntry_cons {d : Nat} (kv : String × FileCacheEntry d)
    (rest : CacheMap d) (k : String) (v : FileCacheEntry d) :
    insertEntry (kv :: rest) k v =
      if kv.1 = k then (k, v) :: rest else kv :: insertEntry rest k v := by
  simp [insertEntry]

lemma lookupEntry_insertEntry_self {d : Nat} (m : CacheMap d) (k : String)
    (v : FileCacheEntry d) :
    lookupEntry (insertEntry m k v) k = some v := by
  induction m with
  | nil => simp [insertEntry, lookupEntry_cons, lookupEntry_nil]
  | cons kv rest ih =>
    rw [insertEntry_cons]
    by_cases h : kv.1 = k
    · simp [h, lookupEntry_cons]
    · rw [if_neg h, lookupEntry_cons, if_neg h]
      exact ih

lemma lookupEntry_insertEntry_ne {d : Nat} (m : CacheMap d) (k q : String)
    (v : FileCacheEntry d) (h : q ≠ k) :
    lookupEntry (insertEntry m k v) q = lookupEntry m q := by
  induction m with
  | nil =>
    have hrw : insertEntry ([] : CacheMap d) k v = [(k, v)] := rfl
    rw [hrw, lookupEntry_cons, if_neg (fun hq => h hq.symm)]
  | cons kv rest ih =>
    rw [insertEntry_cons]
    by_cases hk : kv.1 = k
    · rw [if_pos hk, lookupEntry_cons, lookupEntry_cons,
        if_neg (fun hq => h hq.symm), if_neg (fun hq => h (hk ▸ hq).symm)]
    · rw [if_neg hk, lookupEntry_cons, lookupEntry_cons]
      by_cases hq : kv.1 = q
      · rw [if_pos hq, if_pos hq]
      · rw [if_neg hq, if_neg hq]
        exact ih

lemma lookupEntry_ne_none_of_mem_keys {d : Nat} (m : CacheMap d) (k : String)
    (h : k ∈ m.map Prod.fst) : lookupEntry m k ≠ none := by
  induction m with
  | nil => simp at h
  | cons kv rest ih =>
    rw [lookupEntry_cons]
    by_cases hq : kv.1 = k
    · simp [hq]
    · rw [if_neg hq]
      rcases List.mem_cons.mp h with h1 | h1
      · exact absurd h1.symm hq
      · exact ih h1

/-- Every sample returned by `detectFacesInFile` carries the path of the
file it was detected in, provided the detection table is well formed. -/
lemma path_eq_of_mem_detect {d : Nat} {fs : FS d} (hwf : DetectWF fs)
    {f : String} {s : FaceSample d} (hs : s ∈ detectFacesInFile fs f) :
    s.path = f := by
  unfold detectFacesInFile at hs
  cases hfind : fs.detections.find? (fun kv => kv.1 == f) with
  | none => rw [hfind] at hs; simp at hs
  | some kv =>
    rw [hfind] at hs
    simp at hs
    have hmem := List.mem_of_find?_eq_some hfind
    have hkey : kv.1 = f := by
      have := List.find?_some hfind
      simpa [beq_iff_eq] using this
    exact hkey ▸ hwf kv hmem s hs

/-! ## Lemmas about the best-match loop -/

set_option maxHeartbeats 1000000 in
lemma bestLoop_le {d : Nat} (desc : Vec d) (cs : List (Cluster d)) :
    ∀ (i : Nat) (acc : Option (Nat × ℚ)) (r : Nat × ℚ),
      bestLoop desc cs i acc = some r →
      (∀ c ∈ cs, r.2 ≤ distSq desc c.centroid) ∧
      (∀ p, acc = some p → r.2 ≤ p.2) := by
  induction cs with
  | nil =>
    intro i acc r h
    refine ⟨by simp, ?_⟩
    intro p hp
    rw [hp] at h
    cases h
    exact le_refl _
  | cons c rest ih =>
    intro i acc r h
    rcases acc with _ | ⟨bi, bd⟩
    · rw [bestLoop_cons_none] at h
      obtain ⟨hrest, hacc⟩ := ih (i + 1) _ r h
      have hrD : r.2 ≤ distSq desc c.centroid := hacc _ rfl
      refine ⟨?_, ?_⟩
      · intro c' hc'
        rcases List.mem_cons.mp hc' with rfl | hmem
        · exact hrD
        · exact hrest c' hmem
      · intro p hp
        cases hp
    · rw [bestLoop_cons_some] at h
      by_cases hlt : distSq desc c.centroid < bd
      · rw [if_pos hlt] at h
        obtain ⟨hrest, hacc⟩ := ih (i + 1) _ r h
        have hrD : r.2 ≤ distSq desc c.centroid := hacc _ rfl
        refine ⟨?_, ?_⟩
        · intro c' hc'
          rcases List.mem_cons.mp hc' with rfl | hmem
          · exact hrD
          · exact hrest c' hmem
        · intro p hp
          cases hp
          exact hrD.trans hlt.le
      · rw [if_neg hlt] at h
        obtain ⟨hrest, hacc⟩ := ih (i + 1) _ r h
        have hrbd : r.2 ≤ bd := hacc _ rfl
        refine ⟨?_, ?_⟩
        · intro c' hc'
          rcases List.mem_cons.mp hc' with rfl | hmem
          · exact hrbd.trans (not_lt.mp hlt)
          · exact hrest c' hmem
        · intro p hp
          cases hp
          exact hrbd

lemma bestLoop_origin {d : Nat} (desc : Vec d) (cs : List (Cluster d)) :
    ∀ (i : Nat) (acc : Option (Nat × ℚ)) (r : Nat × ℚ),
      bestLoop desc cs i acc = some r →
      acc = some r ∨
        ∃ k, k < cs.length ∧ r.1 = i + k ∧
          r.2 = distSq desc ((cs.getD k default).centroid) := by
  induction cs with
  | nil =>
    intro i acc r h
    exact Or.inl h
  | cons c rest ih =>
    intro i acc r h
    have step :
        ∀ (acc2 : Nat × ℚ),
          bestLoop desc rest (i + 1) (some acc2) = some r →
          (acc2 = (i, distSq desc c.centroid) ∨ acc = some acc2) →
          acc = some r ∨
            ∃ k, k < (c :: rest).length ∧ r.1 = i + k ∧
              r.2 = distSq desc (((c :: rest).getD k default).centroid) := by
      intro acc2 hrun hsrc
      rcases ih (i + 1) (some acc2) r hrun with heq | ⟨k, hk, hk1, hk2⟩
      · cases heq
        rcases hsrc with rfl | hacc
        · exact Or.inr ⟨0, by simp, by simp, by simp⟩
        · exact Or.inl hacc
      · refine Or.inr ⟨k + 1, by simpa using Nat.succ_lt_succ hk, ?_, ?_⟩
        · omega
        · simpa [List.getD_cons_succ] using hk2
    rcases acc with _ | ⟨bi, bd⟩
    · rw [bestLoop_cons_none] at h
      exact step _ h (Or.inl rfl)
    · rw [bestLoop_cons_some] at h
      by_cases hlt : distSq desc c.centroid < bd
      · rw [if_pos hlt] at h
        exact step _ h (Or.inl rfl)
      · rw [if_neg hlt] at h
        exact step _ h (Or.inr rfl)

lemma bestLoop_isSome {d : Nat} (desc : Vec d) (cs : List (Cluster d)) :
    ∀ (i : Nat) (p : Nat × ℚ), ∃ r, bestLoop desc cs i (some p) = some r := by
  induction cs with
  | nil =>
    intro i p
    exact ⟨p, rfl⟩
  | cons c rest ih =>
    intro i p
    rcases p with ⟨bi, bd⟩
    rw [bestLoop_cons_some]
    by_cases hlt : distSq desc c.centroid < bd
    · rw [if_pos hlt]; exact ih (i + 1) _
    · rw [if_neg hlt]; exact ih (i + 1) _

lemma bestMatch_isSome {d : Nat} (cs : List (Cluster d)) (desc : Vec d)
    (h : cs ≠ []) : ∃ r, bestMatch cs desc = some r := by
  match cs with
  | [] => exact absurd rfl h
  | c :: rest =>
    unfold bestMatch
    rw [bestLoop_cons_none]
    exact bestLoop_isSome desc rest 1 _

lemma centroidOf_singleton {d : Nat} (v : Vec d) : centroidOf [v] = v := by
  funext i
  simp [centroidOf]

lemma assignToClusters_some_le {d : Nat} {cs : List (Cluster d)}
    {s : FaceSample d} {bi : Nat} {bd : ℚ}
    (h : bestMatch cs s.descriptor = some (bi, bd))
    (hth : bd ≤ FACE_DISTANCE_THRESHOLD ^ 2) :
    assignToClusters cs s = cs.set bi (addToCluster (cs.getD bi default) s) := by
  simp only [assignToClusters, h]
  rw [if_pos hth]

lemma assignToClusters_some_gt {d : Nat} {cs : List (Cluster d)}
    {s : FaceSample d} {bi : Nat} {bd : ℚ}
    (h : bestMatch cs s.descriptor = some (bi, bd))
    (hth : ¬ bd ≤ FACE_DISTANCE_THRESHOLD ^ 2) :
    assignToClusters cs s = cs ++ [newCluster s] := by
  simp only [assignToClusters, h]
  rw [if_neg hth]

lemma assignToClusters_none {d : Nat} {cs : List (Cluster d)}
    {s : FaceSample d} (h : bestMatch cs s.descriptor = none) :
    assignToClusters cs s = cs ++ [newCluster s] := by
  simp only [assignToClusters, h]

/-! ## C2: nearest-centroid assignment -/

/-- C2: for every call to `assignToClusters` with a non-empty cluster list,
the loop finds an index `bi` whose centroid is at minimum (squared)
Euclidean distance `bd` from the detection descriptor; if
`bd ≤ FACE_DISTANCE_THRESHOLD ^ 2` (i.e. the Euclidean distance is within
the 0.52 threshold) the detection is added to that cluster and no cluster
is created, and otherwise — as always on an empty cluster list — a new
cluster is appended whose sole member is the detection and whose centroid
is its embedding.  Distances are compared in squared form, which is
equivalent since the square root is strictly monotone. -/
theorem assignToClusters_nearest_centroid {d : Nat} (cs : List (Cluster d))
    (s : FaceSample d) (hne : cs ≠ []) :
    assignToClusters ([] : List (Cluster d)) s = [newCluster s] ∧
    (newCluster s).descriptors = [s.descriptor] ∧
    (newCluster s).centroid = s.descriptor ∧
    (newCluster s).paths = [s.path] ∧
    ∃ bi bd, bestMatch cs s.descriptor = some (bi, bd) ∧
      bi < cs.length ∧
      bd = distSq s.descriptor ((cs.getD bi default).centroid) ∧
      (∀ c ∈ cs, bd ≤ distSq s.descriptor c.centroid) ∧
      (bd ≤ FACE_DISTANCE_THRESHOLD ^ 2 →
        assignToClusters cs s =
          cs.set bi (addToCluster (cs.getD bi default) s) ∧
        (addToCluster (cs.getD bi default) s).descriptors =
          (cs.getD bi default).descriptors ++ [s.descriptor] ∧
        (assignToClusters cs s).length = cs.length) ∧
      (FACE_DISTANCE_THRESHOLD ^ 2 < bd →
        assignToClusters cs s = cs ++ [newCluster s]) := by
  refine ⟨rfl, rfl, rfl, rfl, ?_⟩
  obtain ⟨⟨bi, bd⟩, hr⟩ := bestMatch_isSome cs s.descriptor hne
  obtain ⟨hmin, -⟩ := bestLoop_le s.descriptor cs 0 none (bi, bd) hr
  rcases bestLoop_origin s.descriptor cs 0 none (bi, bd) hr with heq | hk
  · cases heq
  obtain ⟨k, hk, hk1, hk2⟩ := hk
  have hbik : bi = k := by simpa using hk1
  subst hbik
  refine ⟨bi, bd, hr, hk, hk2, hmin, ?_, ?_⟩
  · intro hth
    exact ⟨assignToClusters_some_le hr hth, rfl, by
      rw [assignToClusters_some_le hr hth, List.length_set]⟩
  · intro hth
    exact assignToClusters_some_gt hr (not_le.mpr hth)

/-- Concrete face samples (dimension-1 embeddings) used to instantiate the
hypothesis-bearing theorems: three detections from files `A`, `B`, `C` at
embedding positions `0`, `1/2` and `2`. -/
def exS0 : FaceSample 1 := ⟨fun _ => 0, "A", "tA", some "fA"⟩

/-- Second concrete face sample, at squared distance `1/4 ≤ 0.52 ^ 2` from
`exS0`. -/
def exS1 : FaceSample 1 := ⟨fun _ => 1 / 2, "B", "tB", some "fB"⟩

/-- Third concrete face sample, far away from the first two. -/
def exS2 : FaceSample 1 := ⟨fun _ => 2, "C", "tC", some "fC"⟩

/-- Witness for C2 at the concrete input `cs = [newCluster exS0]`,
`s = exS1`. -/
theorem assignToClusters_nearest_centroid_witness :
    assignToClusters ([] : List (Cluster 1)) exS1 = [newCluster exS1] ∧
    (newCluster exS1).descriptors = [exS1.descriptor] ∧
    (newCluster exS1).centroid = exS1.descriptor ∧
    (newCluster exS1).paths = [exS1.path] ∧
    ∃ bi bd, bestMatch [newCluster exS0] exS1.descriptor = some (bi, bd) ∧
      bi < [newCluster exS0].length ∧
      bd = distSq exS1.descriptor
        (([newCluster exS0].getD bi default).centroid) ∧
      (∀ c ∈ [newCluster exS0], bd ≤ distSq exS1.descriptor c.centroid) ∧
      (bd ≤ FACE_DISTANCE_THRESHOLD ^ 2 →
        assignToClusters [newCluster exS0] exS1 =
          [newCluster exS0].set bi
            (addToCluster ([newCluster exS0].getD bi default) exS1) ∧
        (addToCluster ([newCluster exS0].getD bi default) exS1).descriptors =
          ([newCluster exS0].getD bi default).descriptors ++
            [exS1.descriptor] ∧
        (assignToClusters [newCluster exS0] exS1).length =
          [newCluster exS0].length) ∧
      (FACE_DISTANCE_THRESHOLD ^ 2 < bd →
        assignToClusters [newCluster exS0] exS1 =
          [newCluster exS0] ++ [newCluster exS1]) :=
  assignToClusters_nearest_centroid [newCluster exS0] exS1 (by simp)

/-! ## C3: the centroid/nonemptiness invariant of the cluster list -/

/-- Cluster lists reachable from the empty list by `assignToClusters`
calls — exactly the lists the scan ever builds. -/
inductive ReachableClusters {d : Nat} : List (Cluster d) → Prop where
  | nil : ReachableClusters []
  | assign (cs : List (Cluster d)) (s : FaceSample d) :
      ReachableClusters cs → ReachableClusters (assignToClusters cs s)

/-- The claimed invariant: every cluster has at least one member and its
centroid is the exact arithmetic mean of its member embeddings. -/
def ClustersInv {d : Nat} (cs : List (Cluster d)) : Prop :=
  ∀ c ∈ cs, c.descriptors ≠ [] ∧ c.centroid = centroidOf c.descriptors

instance {d : Nat} (cs : List (Cluster d)) : Decidable (ClustersInv cs) := by
  unfold ClustersInv
  infer_instance

/-- C3: every cluster list reachable from the empty list by any sequence
of `assignToClusters` calls satisfies the invariant: each cluster is
non-empty and its centroid is the full arithmetic mean of its current
member descriptors, recomputed on every insertion. -/
theorem reachable_clusters_invariant {d : Nat} (cs : List (Cluster d))
    (h : ReachableClusters cs) : ClustersInv cs := by
  induction h with
  | nil =>
    intro c hc
    cases hc
  | assign cs s _ ih =>
    intro c hc
    rcases hbm : bestMatch cs s.descriptor with _ | ⟨bi, bd⟩
    · rw [assignToClusters_none hbm] at hc
      rcases List.mem_append.mp hc with hmem | hmem
      · exact ih c hmem
      · have hceq : c = newCluster s := by simpa using hmem
        subst hceq
        exact ⟨by simp [newCluster], (centroidOf_singleton s.descriptor).symm⟩
    · by_cases hth : bd ≤ FACE_DISTANCE_THRESHOLD ^ 2
      · rw [assignToClusters_some_le hbm hth] at hc
        rcases List.mem_or_eq_of_mem_set hc with hmem | hceq
        · exact ih c hmem
        · subst hceq
          refine ⟨by simp [addToCluster], rfl⟩
      · rw [assignToClusters_some_gt hbm hth] at hc
        rcases List.mem_append.mp hc with hmem | hmem
        · exact ih c hmem
        · have hceq : c = newCluster s := by simpa using hmem
          subst hceq
          exact ⟨by simp [newCluster], (centroidOf_singleton s.descriptor).symm⟩

/-- Witness for C3 on a concrete reachable cluster list built by two
assignment calls. -/
theorem reachable_clusters_invariant_witness :
    ClustersInv (assignToClusters (assignToClusters [] exS0) exS1) :=
  reachable_clusters_invariant _
    (ReachableClusters.assign _ exS1
      (ReachableClusters.assign _ exS0 ReachableClusters.nil))

/-! ## C8: the cache store fails soft -/

/-- C8: `loadFaceCache` returns the absent marker (`null` in the source)
for a missing cache file, for contents that fail `JSON.parse`, and for a
parsed document whose `version` differs from `CACHE_VERSION`; it is a
total function, so no such input raises an exception that could abort the
scan. -/
theorem loadFaceCache_fail_soft {d : Nat} (doc : CacheDoc d)
    (hv : doc.version ≠ CACHE_VERSION) :
    loadFaceCache (CacheFileState.missing : CacheFileState d) = none ∧
    loadFaceCache (CacheFileState.malformed : CacheFileState d) = none ∧
    loadFaceCache (CacheFileState.parsed doc) = none := by
  refine ⟨rfl, rfl, ?_⟩
  simp [loadFaceCache, hv]

/-- Witness for C8 with a parsed document of version 2 (≠ 1). -/
theorem loadFaceCache_fail_soft_witness :
    loadFaceCache (CacheFileState.missing : CacheFileState 1) = none ∧
    loadFaceCache (CacheFileState.malformed : CacheFileState 1) = none ∧
    loadFaceCache (CacheFileState.parsed (⟨2, []⟩ : CacheDoc 1)) = none :=
  loadFaceCache_fail_soft ⟨2, []⟩ (by decide)

/-! ## C4: the change detector -/

lemma categorizeGo_cons_some_eq {d : Nat} (fs : FS d) (cf : CacheMap d)
    {g : String} {eg : FileCacheEntry d}
    (rest : List String) (ca : List (String × FileCacheEntry d))
    (ts cp : List String)
    (hlook : lookupEntry cf (normalizePath g) = some eg)
    (hmt : getFileMtime fs g = eg.mtime) :
    categorizeGo fs cf (g :: rest) ca ts cp =
      categorizeGo fs cf rest (ca ++ [(g, eg)]) ts
        (cp.erase (normalizePath g)) := by
  simp [categorizeGo, hlook, hmt]

lemma categorizeGo_cons_some_ne {d : Nat} (fs : FS d) (cf : CacheMap d)
    {g : String} {eg : FileCacheEntry d}
    (rest : List String) (ca : List (String × FileCacheEntry d))
    (ts cp : List String)
    (hlook : lookupEntry cf (normalizePath g) = some eg)
    (hmt : ¬ getFileMtime fs g = eg.mtime) :
    categorizeGo fs cf (g :: rest) ca ts cp =
      categorizeGo fs cf rest ca (ts ++ [g]) (cp.erase (normalizePath g)) := by
  simp [categorizeGo, hlook, hmt]

lemma categorizeGo_cons_nolook {d : Nat} (fs : FS d) (cf : CacheMap d)
    {g : String} (rest : List String)
    (ca : List (String × FileCacheEntry d)) (ts cp : List String)
    (hlook : lookupEntry cf (normalizePath g) = none) :
    categorizeGo fs cf (g :: rest) ca ts cp =
      categorizeGo fs cf rest ca (ts ++ [g]) cp := by
  simp [categorizeGo, hlook]

lemma categorizeGo_cached_mem {d : Nat} (fs : FS d) (cf : CacheMap d)
    (files : List String) :
    ∀ (ca : List (String × FileCacheEntry d)) (ts cp : List String)
      (f : String) (e : FileCacheEntry d),
      ((f, e) ∈ (categorizeGo fs cf files ca ts cp).cached ↔
        (f, e) ∈ ca ∨ (f ∈ files ∧
          lookupEntry cf (normalizePath f) = some e ∧
          getFileMtime fs f = e.mtime)) := by
  induction files with
  | nil =>
    intro ca ts cp f e
    simp [categorizeGo]
  | cons g rest ih =>
    intro ca ts cp f e
    cases hlook : lookupEntry cf (normalizePath g) with
    | some eg =>
      by_cases hmt : getFileMtime fs g = eg.mtime
      · rw [categorizeGo_cons_some_eq fs cf rest ca ts cp hlook hmt, ih]
        constructor
        · rintro (hmem | ⟨hf, hl, hm⟩)
          · rcases List.mem_append.mp hmem with h | h
            · exact Or.inl h
            · have hfg : f = g ∧ e = eg := by simpa using h
              rcases hfg with ⟨rfl, rfl⟩
              exact Or.inr ⟨List.mem_cons_self _ _, hlook, hmt⟩
          · exact Or.inr ⟨List.mem_cons_of_mem _ hf, hl, hm⟩
        · rintro (h | ⟨hf, hl, hm⟩)
          · exact Or.inl (List.mem_append.mpr (Or.inl h))
          · rcases List.mem_cons.mp hf with rfl | hf2
            · rw [hlook] at hl
              cases hl
              exact Or.inl (List.mem_append.mpr (Or.inr (by simp)))
            · exact Or.inr ⟨hf2, hl, hm⟩
      · rw [categorizeGo_cons_some_ne fs cf rest ca ts cp hlook hmt, ih]
        constructor
        · rintro (h | ⟨hf, hl, hm⟩)
          · exact Or.inl h
          · exact Or.inr ⟨List.mem_cons_of_mem _ hf, hl, hm⟩
        · rintro (h | ⟨hf, hl, hm⟩)
          · exact Or.inl h
          · rcases List.mem_cons.mp hf with rfl | hf2
            · rw [hlook] at hl
              cases hl
              exact absurd hm hmt
            · exact Or.inr ⟨hf2, hl, hm⟩
    | none =>
      rw [categorizeGo_cons_nolook fs cf rest ca ts cp hlook, ih]
      constructor
      · rintro (h | ⟨hf, hl, hm⟩)
        · exact Or.inl h
        · exact Or.inr ⟨List.mem_cons_of_mem _ hf, hl, hm⟩
      · rintro (h | ⟨hf, hl, hm⟩)
        · exact Or.inl h
        · rcases List.mem_cons.mp hf with rfl | hf2
          · rw [hlook] at hl
            cases hl
          · exact Or.inr ⟨hf2, hl, hm⟩

lemma categorizeGo_toScan_mem {d : Nat} (fs : FS d) (cf : CacheMap d)
    (files : List String) :
    ∀ (ca : List (String × FileCacheEntry d)) (ts cp : List String)
      (f : String),
      (f ∈ (categorizeGo fs cf files ca ts cp).toScan ↔
        f ∈ ts ∨ (f ∈ files ∧
          (lookupEntry cf (normalizePath f) = none ∨
            ∃ e, lookupEntry cf (normalizePath f) = some e ∧
              getFileMtime fs f ≠ e.mtime))) := by
  induction files with
  | nil =>
    intro ca ts cp f
    simp [categorizeGo]
  | cons g rest ih =>
    intro ca ts cp f
    cases hlook : lookupEntry cf (normalizePath g) with
    | some eg =>
      by_cases hmt : getFileMtime fs g = eg.mtime
      · rw [categorizeGo_cons_some_eq fs cf rest ca ts cp hlook hmt, ih]
        constructor
        · rintro (h | ⟨hf, hrest⟩)
          · exact Or.inl h
          · exact Or.inr ⟨List.mem_cons_of_mem _ hf, hrest⟩
        · rintro (h | ⟨hf, hrest⟩)
          · exact Or.inl h
          · rcases List.mem_cons.mp hf with rfl | hf2
            · rcases hrest with hl | ⟨e, hl, hm⟩
              · rw [hlook] at hl; cases hl
              · rw [hlook] at hl
                cases hl
                exact absurd hmt hm
            · exact Or.inr ⟨hf2, hrest⟩
      · rw [categorizeGo_cons_some_ne fs cf rest ca ts cp hlook hmt, ih]
        constructor
        · rintro (h | ⟨hf, hrest⟩)
          · rcases List.mem_append.mp h with h2 | h2
            · exact Or.inl h2
            · have hfg : f = g := by simpa using h2
              subst hfg
              exact Or.inr ⟨List.mem_cons_self _ _, Or.inr ⟨eg, hlook, hmt⟩⟩
          · exact Or.inr ⟨List.mem_cons_of_mem _ hf, hrest⟩
        · rintro (h | ⟨hf, hrest⟩)
          · exact Or.inl (List.mem_append.mpr (Or.inl h))
          · rcases List.mem_cons.mp hf with rfl | hf2
            · exact Or.inl (List.mem_append.mpr (Or.inr (by simp)))
            · exact Or.inr ⟨hf2, hrest⟩
    | none =>
      rw [categorizeGo_cons_nolook fs cf rest ca ts cp hlook, ih]
      constructor
      · rintro (h | ⟨hf, hrest⟩)
        · rcases List.mem_append.mp h with h2 | h2
          · exact Or.inl h2
          · have hfg : f = g := by simpa using h2
            subst hfg
            exact Or.inr ⟨List.mem_cons_self _ _, Or.inl hlook⟩
        · exact Or.inr ⟨List.mem_cons_of_mem _ hf, hrest⟩
      · rintro (h | ⟨hf, hrest⟩)
        · exact Or.inl (List.mem_append.mpr (Or.inl h))
        · rcases List.mem_cons.mp hf with rfl | hf2
          · exact Or.inl (List.mem_append.mpr (Or.inr (by simp)))
          · exact Or.inr ⟨hf2, hrest⟩

/-- C4: the change detector classifies an enumerated file as unchanged
(`cached`) iff the cache holds an entry under the file's normalized path
whose stored `mtime` equals the file's current modification time exactly,
and classifies it as `toScan` iff it has no cache entry or any `mtime`
mismatch (newer or older). -/
theorem categorizeFiles_change_detection {d : Nat} (fs : FS d)
    (cache : Option (CacheDoc d)) (f : String) (hf : f ∈ fs.mediaFiles) :
    ((∃ e, (f, e) ∈ (categorizeFiles fs cache).cached) ↔
      (∃ e, lookupEntry ((cache.map (fun c => c.files)).getD [])
          (normalizePath f) = some e ∧ getFileMtime fs f = e.mtime)) ∧
    (f ∈ (categorizeFiles fs cache).toScan ↔
      (lookupEntry ((cache.map (fun c => c.files)).getD [])
          (normalizePath f) = none ∨
        ∃ e, lookupEntry ((cache.map (fun c => c.files)).getD [])
            (normalizePath f) = some e ∧ getFileMtime fs f ≠ e.mtime)) := by
  constructor
  · constructor
    · rintro ⟨e, he⟩
      rcases (categorizeGo_cached_mem fs _ fs.mediaFiles [] [] _ f e).mp he with
        h | ⟨-, hl, hm⟩
      · cases h
      · exact ⟨e, hl, hm⟩
    · rintro ⟨e, hl, hm⟩
      exact ⟨e, (categorizeGo_cached_mem fs _ fs.mediaFiles [] [] _ f e).mpr
        (Or.inr ⟨hf, hl, hm⟩)⟩
  · constructor
    · intro h
      rcases (categorizeGo_toScan_mem fs _ fs.mediaFiles [] [] _ f).mp h with
        h2 | ⟨-, hrest⟩
      · cases h2
      · exact hrest
    · intro h
      exact (categorizeGo_toScan_mem fs _ fs.mediaFiles [] [] _ f).mpr
        (Or.inr ⟨hf, h⟩)

/-- A concrete file system for witnesses: file `A` unchanged with a
matching cache entry, file `B` with a stale entry, file `C` uncached. -/
def exFS : FS 1 :=
  { mediaFiles := ["A", "B", "C"]
    mtimes := [("A", 5), ("B", 7), ("C", 9)]
    detections := [("A", [exS0]), ("B", [exS1]), ("C", [exS2])] }

/-- A concrete cache document for witnesses: `A` fresh, `B` stale. -/
def exDoc : CacheDoc 1 :=
  { version := 1
    files := [("A", ⟨5, [toCachedFace exS0]⟩), ("B", ⟨6, []⟩)] }

/-- Witness for C4 at the concrete file `A` of `exFS` with cache
`exDoc`. -/
theorem categorizeFiles_change_detection_witness :
    ((∃ e, ("A", e) ∈ (categorizeFiles exFS (some exDoc)).cached) ↔
      (∃ e, lookupEntry (((some exDoc).map (fun c => c.files)).getD [])
          (normalizePath "A") = some e ∧
        getFileMtime exFS "A" = e.mtime)) ∧
    ("A" ∈ (categorizeFiles exFS (some exDoc)).toScan ↔
      (lookupEntry (((some exDoc).map (fun c => c.files)).getD [])
          (normalizePath "A") = none ∨
        ∃ e, lookupEntry (((some exDoc).map (fun c => c.files)).getD [])
            (normalizePath "A") = some e ∧
          getFileMtime exFS "A" ≠ e.mtime)) :=
  categorizeFiles_change_detection exFS (some exDoc) "A" (by simp [exFS])

/-! ## C10: shape of the cluster summaries -/

instance : IsTotal FaceGroup (fun a b => b.count ≤ a.count) :=
  ⟨fun a b => le_total b.count a.count⟩

instance : IsTrans FaceGroup (fun a b => b.count ≤ a.count) :=
  ⟨fun _ _ _ hab hbc => le_trans hbc hab⟩

/-- C10: every cluster summary produced by `clustersToFaces` (used both for
progress events and for the final result) lists the face groups sorted by
`count` in non-increasing order; the groups are exactly the per-cluster
records, each group's `count` is the number of distinct source-file paths
of its cluster (its `paths` Set size), while the returned path list is that
Set truncated to at most `MAX_RESULTS_PER_FACE` entries — so `count` can
exceed the returned list's length but never the other way around. -/
theorem clustersToFaces_sorted_counts {d : Nat} (cs : List (Cluster d))
    (hnd : ∀ c ∈ cs, c.paths.Nodup) :
    List.Pairwise (fun a b => b.count ≤ a.count) (clustersToFaces cs) ∧
    (clustersToFaces cs).Perm
      ((cs.enum).map (fun p => mkFaceGroup p.1 p.2)) ∧
    ∀ g ∈ clustersToFaces cs, ∃ c ∈ cs,
      c.paths.Nodup ∧
      g.count = c.paths.length ∧
      g.paths = c.paths.take MAX_RESULTS_PER_FACE ∧
      g.paths.length ≤ MAX_RESULTS_PER_FACE ∧
      g.paths.length ≤ g.count := by
  refine ⟨?_, ?_, ?_⟩
  · exact List.sorted_insertionSort
      (fun a b : FaceGroup => b.count ≤ a.count) _
  · exact List.perm_insertionSort _ _
  · intro g hg
    have hg2 : g ∈ (cs.enum).map (fun p => mkFaceGroup p.1 p.2) :=
      (List.perm_insertionSort _ _).mem_iff.mp hg
    obtain ⟨p, hp, hpg⟩ := List.mem_map.mp hg2
    have hc : p.2 ∈ cs :=
      List.mem_iff_getElem?.mpr ⟨p.1, List.mem_enum_iff_getElem?.mp hp⟩
    subst hpg
    refine ⟨p.2, hc, hnd p.2 hc, rfl, rfl, ?_, ?_⟩
    · show (p.2.paths.take MAX_RESULTS_PER_FACE).length ≤ MAX_RESULTS_PER_FACE
      rw [List.length_take]
      exact min_le_left _ _
    · show (p.2.paths.take MAX_RESULTS_PER_FACE).length ≤ p.2.paths.length
      rw [List.length_take]
      exact min_le_right _ _

/-! ## Lemmas about the scan pipeline -/

lemma scanFaces_processedFiles {d : Nat} (fs : FS d)
    (cache : Option (CacheDoc d)) (ca : Option Nat)
    (hne : fs.mediaFiles ≠ []) :
    (scanFaces fs cache ca).processedFiles = toRunFiles fs cache ca := by
  simp [scanFaces, hne]

lemma scanFaces_savedFiles {d : Nat} (fs : FS d)
    (cache : Option (CacheDoc d)) (ca : Option Nat)
    (hne : fs.mediaFiles ≠ []) :
    (scanFaces fs cache ca).savedFiles = some (scanState fs cache ca).1 := by
  simp [scanFaces, hne]

lemma scanFaces_faces {d : Nat} (fs : FS d) (cache : Option (CacheDoc d))
    (ca : Option Nat) (hne : fs.mediaFiles ≠ []) :
    (scanFaces fs cache ca).faces =
      clustersToFaces (scanState fs cache ca).2 := by
  simp [scanFaces, hne]

lemma scanFaces_groupCount {d : Nat} (fs : FS d) (cache : Option (CacheDoc d))
    (ca : Option Nat) (hne : fs.mediaFiles ≠ []) :
    (scanFaces fs cache ca).groupCount =
      (clustersToFaces (scanState fs cache ca).2).length := by
  simp [scanFaces, hne]

lemma scanFaces_cancelled {d : Nat} (fs : FS d) (cache : Option (CacheDoc d))
    (ca : Option Nat) (hne : fs.mediaFiles ≠ []) :
    (scanFaces fs cache ca).cancelled = scanCancelled fs cache ca := by
  simp [scanFaces, hne]

lemma scanFaces_cacheStats {d : Nat} (fs : FS d) (cache : Option (CacheDoc d))
    (ca : Option Nat) (hne : fs.mediaFiles ≠ []) :
    (scanFaces fs cache ca).cacheStats = some
      { cached := (categorizeFiles fs cache).cached.length
        scanned :=
          if scanCancelled fs cache ca
          then (toRunFiles fs cache ca).length
          else (categorizeFiles fs cache).toScan.length
        removed := (categorizeFiles fs cache).removed.length } := by
  simp [scanFaces, hne]

lemma processFold_snd {d : Nat} (fs : FS d) (files : List String) :
    ∀ st : CacheMap d × List (Cluster d),
      (files.foldl (processFile fs) st).2 =
        files.foldl
          (fun cs f => assignAll cs ((detectFacesInFile fs f).take MAX_SAMPLES))
          st.2 := by
  induction files with
  | nil => intro st; rfl
  | cons f rest ih =>
    intro st
    rw [List.foldl_cons, List.foldl_cons, ih]
    rfl

lemma rehydrateCached_snd {d : Nat}
    (cached : List (String × FileCacheEntry d)) :
    ∀ st : CacheMap d × List (Cluster d),
      (rehydrateCached cached st).2 =
        cached.foldl
          (fun cs fe => assignAll cs (fe.2.faces.map (rehydrateFace fe.1)))
          st.2 := by
  induction cached with
  | nil => intro st; rfl
  | cons fe rest ih =>
    intro st
    rw [rehydrateCached, List.foldl_cons, List.foldl_cons]
    rw [show rehydrateCached rest = fun st => rest.foldl _ st from rfl] at ih
    exact ih _

lemma processFold_fst_ne {d : Nat} (fs : FS d) (files : List String) :
    ∀ (st : CacheMap d × List (Cluster d)) (k : String),
      k ∉ files.map normalizePath →
      lookupEntry (files.foldl (processFile fs) st).1 k =
        lookupEntry st.1 k := by
  induction files with
  | nil => intro st k _; rfl
  | cons f rest ih =>
    intro st k h
    rw [List.foldl_cons]
    have hmem : k ∉ rest.map normalizePath := by
      intro hk
      exact h (by simp [hk])
    have hne : k ≠ normalizePath f := by
      intro hk
      exact h (by simp [hk])
    rw [ih _ k hmem]
    exact lookupEntry_insertEntry_ne _ _ _ _ hne

lemma processFold_fst_mem {d : Nat} (fs : FS d) (files : List String) :
    ∀ (st : CacheMap d × List (Cluster d)) (f : String),
      f ∈ files → (files.map normalizePath).Nodup →
      lookupEntry (files.foldl (processFile fs) st).1 (normalizePath f) =
        some (mkFileEntry fs f) := by
  induction files with
  | nil => intro st f h; cases h
  | cons g rest ih =>
    intro st f hf hnd
    rw [List.foldl_cons]
    have hnd2 := hnd
    rw [List.map_cons] at hnd2
    rcases List.mem_cons.mp hf with rfl | hf2
    · rw [processFold_fst_ne fs rest _ _ (List.nodup_cons.mp hnd2).1]
      exact lookupEntry_insertEntry_self _ _ _
    · exact ih _ f hf2 (List.nodup_cons.mp hnd2).2

lemma rehydrateCached_fst_ne {d : Nat}
    (cached : List (String × FileCacheEntry d)) :
    ∀ (st : CacheMap d × List (Cluster d)) (k : String),
      (∀ fe ∈ cached, normalizePath fe.1 ≠ k) →
      lookupEntry (rehydrateCached cached st).1 k = lookupEntry st.1 k := by
  induction cached with
  | nil => intro st k _; rfl
  | cons fe rest ih =>
    intro st k h
    rw [rehydrateCached, List.foldl_cons]
    rw [show rest.foldl _ _ = rehydrateCached rest _ from rfl]
    rw [ih _ k (fun fe2 hfe2 => h fe2 (List.mem_cons_of_mem _ hfe2))]
    exact lookupEntry_insertEntry_ne _ _ _ _
      (fun hk => h fe (List.mem_cons_self _ _) hk.symm)

lemma categorizeGo_toScan_split {d : Nat} (fs : FS d) (cf : CacheMap d)
    (files : List String) :
    ∀ (ca : List (String × FileCacheEntry d)) (ts cp : List String),
      ∃ s, (categorizeGo fs cf files ca ts cp).toScan = ts ++ s ∧
        s.Sublist files := by
  induction files with
  | nil =>
    intro ca ts cp
    exact ⟨[], by simp [categorizeGo], List.nil_sublist _⟩
  | cons g rest ih =>
    intro ca ts cp
    cases hlook : lookupEntry cf (normalizePath g) with
    | some eg =>
      by_cases hmt : getFileMtime fs g = eg.mtime
      · rw [categorizeGo_cons_some_eq fs cf rest ca ts cp hlook hmt]
        obtain ⟨s, hs, hsub⟩ := ih _ ts _
        exact ⟨s, hs, hsub.cons _⟩
      · rw [categorizeGo_cons_some_ne fs cf rest ca ts cp hlook hmt]
        obtain ⟨s, hs, hsub⟩ := ih ca (ts ++ [g]) _
        exact ⟨g :: s, by rw [hs]; simp, hsub.cons₂ _⟩
    | none =>
      rw [categorizeGo_cons_nolook fs cf rest ca ts cp hlook]
      obtain ⟨s, hs, hsub⟩ := ih ca (ts ++ [g]) cp
      exact ⟨g :: s, by rw [hs]; simp, hsub.cons₂ _⟩

lemma toScan_sublist_mediaFiles {d : Nat} (fs : FS d)
    (cache : Option (CacheDoc d)) :
    (categorizeFiles fs cache).toScan.Sublist fs.mediaFiles := by
  obtain ⟨s, hs, hsub⟩ :=
    categorizeGo_toScan_split fs _ fs.mediaFiles [] [] _
  rw [categorizeFiles, hs]
  simpa using hsub

lemma toRunFiles_sublist {d : Nat} (fs : FS d) (cache : Option (CacheDoc d))
    (ca : Option Nat) :
    (toRunFiles fs cache ca).Sublist fs.mediaFiles := by
  cases ca with
  | none => exact toScan_sublist_mediaFiles fs cache
  | some k =>
    exact (List.take_sublist _ _).trans (toScan_sublist_mediaFiles fs cache)

lemma categorizeGo_removed_spec {d : Nat} (fs : FS d) (cf : CacheMap d)
    (files : List String) :
    ∀ (ca : List (String × FileCacheEntry d)) (ts cp : List String)
      (k : String), cp.Nodup →
      k ∈ (categorizeGo fs cf files ca ts cp).removed →
      k ∈ cp ∧ ∀ f ∈ files, normalizePath f = k → lookupEntry cf k = none := by
  induction files with
  | nil =>
    intro ca ts cp k _ hk
    refine ⟨hk, ?_⟩
    intro f hf
    cases hf
  | cons g rest ih =>
    intro ca ts cp k hnd hk
    cases hlook : lookupEntry cf (normalizePath g) with
    | some eg =>
      by_cases hmt : getFileMtime fs g = eg.mtime
      · rw [categorizeGo_cons_some_eq fs cf rest ca ts cp hlook hmt] at hk
        obtain ⟨hkcp, hrest⟩ := ih _ _ _ k (hnd.erase _) hk
        obtain ⟨hkne, hkcp2⟩ := (List.Nodup.mem_erase_iff hnd).mp hkcp
        refine ⟨hkcp2, ?_⟩
        intro f hf hnf
        rcases List.mem_cons.mp hf with rfl | hf2
        · exact absurd hnf.symm hkne
        · exact hrest f hf2 hnf
      · rw [categorizeGo_cons_some_ne fs cf rest ca ts cp hlook hmt] at hk
        obtain ⟨hkcp, hrest⟩ := ih _ _ _ k (hnd.erase _) hk
        obtain ⟨hkne, hkcp2⟩ := (List.Nodup.mem_erase_iff hnd).mp hkcp
        refine ⟨hkcp2, ?_⟩
        intro f hf hnf
        rcases List.mem_cons.mp hf with rfl | hf2
        · exact absurd hnf.symm hkne
        · exact hrest f hf2 hnf
    | none =>
      rw [categorizeGo_cons_nolook fs cf rest ca ts cp hlook] at hk
      obtain ⟨hkcp, hrest⟩ := ih _ _ _ k hnd hk
      refine ⟨hkcp, ?_⟩
      intro f hf hnf
      rcases List.mem_cons.mp hf with rfl | hf2
      · exact hnf ▸ hlook
      · exact hrest f hf2 hnf

/-! ## C1: fate of the removed cache entries -/

/-- A file system enumerating only `A` (with the mtime its cache entry
records); the cache additionally holds an entry for the deleted file
`gone`. -/
def exFSA : FS 1 :=
  { mediaFiles := ["A"], mtimes := [("A", 10)], detections := [] }

/-- The cache document with an entry for the deleted file `gone`. -/
def exDocGone : CacheDoc 1 :=
  ⟨1, [("A", ⟨10, []⟩), ("gone", ⟨1, []⟩)]⟩

/-- C1 (amended): a cache key classified as `removed` (present in the
loaded cache but matching no enumerated file) is NOT evicted: the saved
cache document still maps it to its old entry.  The source builds
`newCacheFiles` as a copy of the whole loaded `files` map and never
deletes the removed keys — `removed` is only counted in `cacheStats`. -/
theorem removed_entries_retained {d : Nat} (fs : FS d) (doc : CacheDoc d)
    (ca : Option Nat) (k : String)
    (hnd : (doc.files.map Prod.fst).Nodup)
    (hne : fs.mediaFiles ≠ [])
    (hk : k ∈ (categorizeFiles fs (some doc)).removed) :
    ∃ m, (scanFaces fs (some doc) ca).savedFiles = some m ∧
      lookupEntry m k = lookupEntry doc.files k ∧
      lookupEntry doc.files k ≠ none := by
  have hspec := categorizeGo_removed_spec fs doc.files fs.mediaFiles
    [] [] (doc.files.map Prod.fst) k hnd (by exact hk)
  obtain ⟨hkey, hnohit⟩ := hspec
  have hkeylook : lookupEntry doc.files k ≠ none :=
    lookupEntry_ne_none_of_mem_keys doc.files k hkey
  -- no enumerated file normalizes onto k
  have hnof : ∀ f ∈ fs.mediaFiles, normalizePath f ≠ k := by
    intro f hf hnf
    exact hkeylook (hnohit f hf hnf)
  refine ⟨(scanState fs (some doc) ca).1,
    scanFaces_savedFiles fs (some doc) ca hne, ?_, hkeylook⟩
  unfold scanState
  rw [processFold_fst_ne fs _ _ k ?notrun]
  case notrun =>
    intro hmem
    obtain ⟨f, hf, hnf⟩ := List.mem_map.mp hmem
    exact hnof f ((toRunFiles_sublist fs (some doc) ca).subset hf) hnf
  rw [rehydrateCached_fst_ne _ _ k ?nocached]
  case nocached =>
    intro fe hfe
    have hmem := (categorizeGo_cached_mem fs doc.files fs.mediaFiles
      [] [] _ fe.1 fe.2).mp (by simpa [categorizeFiles] using hfe)
    rcases hmem with h | ⟨hmedia, -, -⟩
    · cases h
    · exact hnof fe.1 hmedia
  rfl

/-- C1 (counterexample to the claim as stated): a concrete scan whose
cache holds an entry for the deleted file `gone`; `gone` is classified as
removed, yet the saved cache document still contains its entry. -/
theorem removed_entry_in_saved_cache_counterexample :
    "gone" ∈ (categorizeFiles exFSA (some exDocGone)).removed ∧
    (scanFaces exFSA (some exDocGone) none).savedFiles =
      some [("A", ⟨10, []⟩), ("gone", ⟨1, []⟩)] ∧
    lookupEntry [("A", (⟨10, []⟩ : FileCacheEntry 1)), ("gone", ⟨1, []⟩)]
      "gone" = some ⟨1, []⟩ := by
  refine ⟨?_, ?_, ?_⟩ <;> with_unfolding_all exact of_decide_eq_true rfl

/-- Witness for the amended C1 on the same concrete scan. -/
theorem removed_entries_retained_witness :
    ∃ m, (scanFaces exFSA (some exDocGone) none).savedFiles = some m ∧
      lookupEntry m "gone" = lookupEntry exDocGone.files "gone" ∧
      lookupEntry exDocGone.files "gone" ≠ none :=
  removed_entries_retained exFSA exDocGone none "gone"
    (by with_unfolding_all exact of_decide_eq_true rfl)
    (by with_unfolding_all exact of_decide_eq_true rfl)
    (by with_unfolding_all exact of_decide_eq_true rfl)

lemma categorizeGo_nil_cf {d : Nat} (fs : FS d) (files : List String) :
    ∀ (ca : List (String × FileCacheEntry d)) (ts cp : List String),
      categorizeGo fs ([] : CacheMap d) files ca ts cp =
        ⟨ca, ts ++ files, cp⟩ := by
  induction files with
  | nil =>
    intro ca ts cp
    simp [categorizeGo]
  | cons g rest ih =>
    intro ca ts cp
    rw [categorizeGo_cons_nolook fs ([] : CacheMap d) rest ca ts cp rfl, ih]
    simp

lemma categorizeFiles_none {d : Nat} (fs : FS d) :
    categorizeFiles fs none = ⟨[], fs.mediaFiles, []⟩ := by
  unfold categorizeFiles
  simpa using categorizeGo_nil_cf fs fs.mediaFiles [] [] []

lemma categorizeGo_all_cached {d : Nat} (fs : FS d) (cf : CacheMap d)
    (ent : String → FileCacheEntry d) (files : List String)
    (h : ∀ f ∈ files, lookupEntry cf (normalizePath f) = some (ent f) ∧
      getFileMtime fs f = (ent f).mtime) :
    ∀ (ca : List (String × FileCacheEntry d)) (ts cp : List String),
      ∃ rem, categorizeGo fs cf files ca ts cp =
        ⟨ca ++ files.map (fun f => (f, ent f)), ts, rem⟩ := by
  induction files with
  | nil =>
    intro ca ts cp
    exact ⟨cp, by simp [categorizeGo]⟩
  | cons g rest ih =>
    intro ca ts cp
    obtain ⟨hl, hm⟩ := h g (List.mem_cons_self _ _)
    rw [categorizeGo_cons_some_eq fs cf rest ca ts cp hl hm]
    obtain ⟨rem, hrem⟩ :=
      ih (fun f hf => h f (List.mem_cons_of_mem _ hf))
        (ca ++ [(g, ent g)]) ts (cp.erase (normalizePath g))
    exact ⟨rem, by rw [hrem]; simp⟩

/-- Replaying the cache entries written for a list of processed files
rebuilds exactly the clusters that processing those files builds: the
stored descriptor/thumbnail data round-trips and the cached sample count
matches the truncation used at assignment time. -/
lemma rehydrate_mkEntry_clusters {d : Nat} (fs : FS d) (hwf : DetectWF fs)
    (files : List String) :
    ∀ cs : List (Cluster d),
      (files.map (fun f => (f, mkFileEntry fs f))).foldl
        (fun cs fe => assignAll cs (fe.2.faces.map (rehydrateFace fe.1))) cs =
      files.foldl
        (fun cs f => assignAll cs ((detectFacesInFile fs f).take MAX_SAMPLES))
        cs := by
  induction files with
  | nil => intro cs; rfl
  | cons g rest ih =>
    intro cs
    rw [List.map_cons, List.foldl_cons, List.foldl_cons, ih]
    congr 1
    show assignAll cs
        ((((detectFacesInFile fs g).take MAX_SAMPLES).map toCachedFace).map
          (rehydrateFace g)) =
      assignAll cs ((detectFacesInFile fs g).take MAX_SAMPLES)
    congr 1
    rw [List.map_map]
    have hid : ∀ s ∈ (detectFacesInFile fs g).take MAX_SAMPLES,
        (rehydrateFace g ∘ toCachedFace) s = id s := by
      intro s hs
      have hsp : s.path = g :=
        path_eq_of_mem_detect hwf (List.mem_of_mem_take hs)
      cases s with
      | mk desc p thumb ft =>
        simp only [Function.comp_apply, rehydrateFace, toCachedFace, id]
        rw [show p = g from hsp]
    rw [List.map_congr_left hid, List.map_id]

lemma scanState_cold {d : Nat} (fs : FS d) :
    scanState fs none none = fs.mediaFiles.foldl (processFile fs) ([], []) := by
  unfold scanState
  rw [show toRunFiles fs none none = (categorizeFiles fs none).toScan from rfl,
    categorizeFiles_none]
  rfl

/-! ## C5: idempotence of the scan -/

/-- The cache the second run loads: the document saved by the first
(cold-start) run, round-tripped through `saveFaceCache` and
`loadFaceCache`. -/
def rescanCache {d : Nat} (fs : FS d) : Option (CacheDoc d) :=
  match (scanFaces fs none none).savedFiles with
  | some m => loadFaceCache (CacheFileState.parsed (saveFaceCache m))
  | none => none

/-- C5: running the scan twice in succession over an unmodified directory
(cold start, then again with the cache document the first run saved)
yields identical face-group summaries — same groups, same membership, same
group count — while the second run processes no file at all: its detector
never runs (`processedFiles = []`) and its `cacheStats.scanned` counter is
`0`.  The hypotheses state that the enumerator yields no two files with
the same normalized path and that the detection table stamps samples with
their own file's path, both guaranteed by the source. -/
theorem scan_idempotent {d : Nat} (fs : FS d)
    (hnd : (fs.mediaFiles.map normalizePath).Nodup) (hwf : DetectWF fs) :
    (scanFaces fs (rescanCache fs) none).faces =
      (scanFaces fs none none).faces ∧
    (scanFaces fs (rescanCache fs) none).groupCount =
      (scanFaces fs none none).groupCount ∧
    (scanFaces fs (rescanCache fs) none).processedFiles = [] ∧
    (∀ st, (scanFaces fs (rescanCache fs) none).cacheStats = some st →
      st.scanned = 0) := by
  by_cases hne : fs.mediaFiles = []
  · have hcache : rescanCache fs = none := by
      unfold rescanCache
      rw [show (scanFaces fs none none).savedFiles = none from by
        simp [scanFaces, hne]]
    rw [hcache]
    refine ⟨rfl, rfl, by simp [scanFaces, hne], ?_⟩
    intro st hst
    rw [show (scanFaces fs none none).cacheStats = none from by
      simp [scanFaces, hne]] at hst
    cases hst
  · have hsaved := scanFaces_savedFiles fs none none hne
    have hcache : rescanCache fs =
        some ⟨CACHE_VERSION, (scanState fs none none).1⟩ := by
      unfold rescanCache
      rw [hsaved]
      simp [loadFaceCache, saveFaceCache]
    have hcold := scanState_cold fs
    have hlook : ∀ f ∈ fs.mediaFiles,
        lookupEntry (scanState fs none none).1 (normalizePath f) =
          some (mkFileEntry fs f) ∧
        getFileMtime fs f = (mkFileEntry fs f).mtime := by
      intro f hf
      refine ⟨?_, rfl⟩
      rw [show (scanState fs none none).1 =
        (fs.mediaFiles.foldl (processFile fs) ([], [])).1 from
          congrArg Prod.fst hcold]
      exact processFold_fst_mem fs _ _ f hf hnd
    obtain ⟨rem, hcatGo⟩ := categorizeGo_all_cached fs
      (scanState fs none none).1 (fun f => mkFileEntry fs f)
      fs.mediaFiles hlook [] []
      ((scanState fs none none).1.map (fun kv => kv.1))
    have hcat2 : categorizeFiles fs (rescanCache fs) =
        ⟨fs.mediaFiles.map (fun f => (f, mkFileEntry fs f)), [], rem⟩ := by
      rw [hcache]
      unfold categorizeFiles
      simpa using hcatGo
    have hcached2 : (categorizeFiles fs (rescanCache fs)).cached =
        fs.mediaFiles.map (fun f => (f, mkFileEntry fs f)) := by rw [hcat2]
    have htoscan2 : (categorizeFiles fs (rescanCache fs)).toScan = [] := by
      rw [hcat2]
    have hstate2 : (scanState fs (rescanCache fs) none).2 =
        (scanState fs none none).2 := by
      have h1 : (scanState fs (rescanCache fs) none).2 =
          (rehydrateCached (categorizeFiles fs (rescanCache fs)).cached
            (baseFiles (rescanCache fs), [])).2 := by
        unfold scanState
        rw [show toRunFiles fs (rescanCache fs) none =
          (categorizeFiles fs (rescanCache fs)).toScan from rfl, htoscan2]
        rfl
      rw [h1, rehydrateCached_snd, hcached2,
        rehydrate_mkEntry_clusters fs hwf, hcold, processFold_snd]
    refine ⟨?_, ?_, ?_, ?_⟩
    · rw [scanFaces_faces fs _ none hne, scanFaces_faces fs none none hne,
        hstate2]
    · rw [scanFaces_groupCount fs _ none hne,
        scanFaces_groupCount fs none none hne, hstate2]
    · rw [scanFaces_processedFiles fs _ none hne,
        show toRunFiles fs (rescanCache fs) none =
          (categorizeFiles fs (rescanCache fs)).toScan from rfl, htoscan2]
    · intro st hst
      rw [scanFaces_cacheStats fs _ none hne] at hst
      cases hst
      show (if scanCancelled fs (rescanCache fs) none
        then (toRunFiles fs (rescanCache fs) none).length
        else (categorizeFiles fs (rescanCache fs)).toScan.length) = 0
      rw [show scanCancelled fs (rescanCache fs) none = false from rfl,
        if_neg (by simp), htoscan2]
      rfl

/-- Witness for C5 on the concrete three-file system `exFS`. -/
theorem scan_idempotent_witness :
    (scanFaces exFS (rescanCache exFS) none).faces =
      (scanFaces exFS none none).faces ∧
    (scanFaces exFS (rescanCache exFS) none).groupCount =
      (scanFaces exFS none none).groupCount ∧
    (scanFaces exFS (rescanCache exFS) none).processedFiles = [] ∧
    (∀ st, (scanFaces exFS (rescanCache exFS) none).cacheStats = some st →
      st.scanned = 0) :=
  scan_idempotent exFS
    (by with_unfolding_all exact of_decide_eq_true rfl)
    (by with_unfolding_all exact of_decide_eq_true rfl)

/-! ## C7: cancellation persists the cache and the scan resumes -/

/-- C7: if the abort signal fires during the scanning phase (after `k` of
the to-process files completed, with more still queued), the scan returns
a summary whose `cancelled` flag is set and saves a cache document that
contains the entry of every file whose processing completed; re-invoking
the scan on the same root with that saved document completes uncancelled
without reprocessing any of those files. -/
theorem scan_cancel_resume {d : Nat} (fs : FS d) (cache : Option (CacheDoc d))
    (k : Nat)
    (hnd : (fs.mediaFiles.map normalizePath).Nodup)
    (hk : k < (categorizeFiles fs cache).toScan.length) :
    (scanFaces fs cache (some k)).cancelled = true ∧
    ∃ m, (scanFaces fs cache (some k)).savedFiles = some m ∧
      (∀ f ∈ (categorizeFiles fs cache).toScan.take k,
        lookupEntry m (normalizePath f) = some (mkFileEntry fs f)) ∧
      (scanFaces fs (loadFaceCache (CacheFileState.parsed (saveFaceCache m)))
          none).cancelled = false ∧
      (∀ f ∈ (categorizeFiles fs cache).toScan.take k,
        f ∉ (scanFaces fs
          (loadFaceCache (CacheFileState.parsed (saveFaceCache m)))
          none).processedFiles) := by
  have hne : fs.mediaFiles ≠ [] := by
    intro h0
    have hsub := toScan_sublist_mediaFiles fs cache
    rw [h0] at hsub
    rw [List.sublist_nil.mp hsub] at hk
    exact Nat.not_lt_zero _ hk
  have hcancel : (scanFaces fs cache (some k)).cancelled = true := by
    rw [scanFaces_cancelled fs cache (some k) hne]
    simp [scanCancelled, hk]
  have hrun : toRunFiles fs cache (some k) =
      (categorizeFiles fs cache).toScan.take k := rfl
  have hndrun : ((toRunFiles fs cache (some k)).map normalizePath).Nodup :=
    ((toRunFiles_sublist fs cache (some k)).map normalizePath).nodup hnd
  have hlook : ∀ f ∈ (categorizeFiles fs cache).toScan.take k,
      lookupEntry (scanState fs cache (some k)).1 (normalizePath f) =
        some (mkFileEntry fs f) := by
    intro f hf
    exact processFold_fst_mem fs _ _ f (by rw [hrun]; exact hf) hndrun
  have hload : loadFaceCache (CacheFileState.parsed
      (saveFaceCache (scanState fs cache (some k)).1)) =
      some ⟨CACHE_VERSION, (scanState fs cache (some k)).1⟩ := by
    simp [loadFaceCache, saveFaceCache]
  refine ⟨hcancel, (scanState fs cache (some k)).1,
    scanFaces_savedFiles fs cache (some k) hne, hlook, ?_, ?_⟩
  · rw [scanFaces_cancelled fs _ none hne]
    rfl
  · intro f hf hmem
    rw [scanFaces_processedFiles fs _ none hne] at hmem
    have hfm : f ∈ fs.mediaFiles :=
      (toScan_sublist_mediaFiles fs cache).subset
        (List.mem_of_mem_take hf)
    have hiff := (categorizeFiles_change_detection fs
      (loadFaceCache (CacheFileState.parsed
        (saveFaceCache (scanState fs cache (some k)).1))) f hfm).2
    have hmem2 : f ∈ (categorizeFiles fs
        (loadFaceCache (CacheFileState.parsed
          (saveFaceCache (scanState fs cache (some k)).1)))).toScan := hmem
    rcases hiff.mp hmem2 with hnone | ⟨e, he, hm⟩
    · rw [hload] at hnone
      rw [show ((some (⟨CACHE_VERSION, (scanState fs cache (some k)).1⟩ :
        CacheDoc d)).map (fun c => c.files)).getD [] =
        (scanState fs cache (some k)).1 from rfl] at hnone
      rw [hlook f hf] at hnone
      cases hnone
    · rw [hload] at he
      rw [show ((some (⟨CACHE_VERSION, (scanState fs cache (some k)).1⟩ :
        CacheDoc d)).map (fun c => c.files)).getD [] =
        (scanState fs cache (some k)).1 from rfl] at he
      rw [hlook f hf] at he
      cases he
      exact hm rfl

/-- Witness for C7 on `exFS`, cold cache, cancelled after one completed
file. -/
theorem scan_cancel_resume_witness :
    (scanFaces exFS none (some 1)).cancelled = true ∧
    ∃ m, (scanFaces exFS none (some 1)).savedFiles = some m ∧
      (∀ f ∈ (categorizeFiles exFS none).toScan.take 1,
        lookupEntry m (normalizePath f) = some (mkFileEntry exFS f)) ∧
      (scanFaces exFS (loadFaceCache (CacheFileState.parsed (saveFaceCache m)))
          none).cancelled = false ∧
      (∀ f ∈ (categorizeFiles exFS none).toScan.take 1,
        f ∉ (scanFaces exFS
          (loadFaceCache (CacheFileState.parsed (saveFaceCache m)))
          none).processedFiles) :=
  scan_cancel_resume exFS none 1
    (by with_unfolding_all exact of_decide_eq_true rfl)
    (by with_unfolding_all exact of_decide_eq_true rfl)

/-! ## C9: the per-file sample cap -/

/-- C9: for every file whose detector task actually ran, the cache entry
stored for it in the saved cache document holds the detector's output
truncated to `MAX_SAMPLES` (96): its length is `min` of the raw count and
the cap, hence always at most 96, and exactly 96 whenever the detector
produced at least that many detections. -/
theorem scan_sample_cap {d : Nat} (fs : FS d) (cache : Option (CacheDoc d))
    (ca : Option Nat) (f : String)
    (hnd : (fs.mediaFiles.map normalizePath).Nodup)
    (hf : f ∈ (scanFaces fs cache ca).processedFiles) :
    ∃ m e, (scanFaces fs cache ca).savedFiles = some m ∧
      lookupEntry m (normalizePath f) = some e ∧
      e.faces.length = min MAX_SAMPLES (detectFacesInFile fs f).length ∧
      e.faces.length ≤ MAX_SAMPLES ∧
      (MAX_SAMPLES ≤ (detectFacesInFile fs f).length →
        e.faces.length = MAX_SAMPLES) := by
  by_cases hne : fs.mediaFiles = []
  · rw [show (scanFaces fs cache ca).processedFiles = [] from by
      simp [scanFaces, hne]] at hf
    cases hf
  · rw [scanFaces_processedFiles fs cache ca hne] at hf
    have hndrun : ((toRunFiles fs cache ca).map normalizePath).Nodup :=
      (((toRunFiles_sublist fs cache ca).map normalizePath).nodup hnd)
    refine ⟨(scanState fs cache ca).1, mkFileEntry fs f,
      scanFaces_savedFiles fs cache ca hne, ?_, ?_, ?_, ?_⟩
    · exact processFold_fst_mem fs _ _ f hf hndrun
    · show (((detectFacesInFile fs f).take MAX_SAMPLES).map toCachedFace).length =
        min MAX_SAMPLES (detectFacesInFile fs f).length
      rw [List.length_map, List.length_take]
    · show (((detectFacesInFile fs f).take MAX_SAMPLES).map toCachedFace).length ≤
        MAX_SAMPLES
      rw [List.length_map, List.length_take]
      exact min_le_left _ _
    · intro hge
      show (((detectFacesInFile fs f).take MAX_SAMPLES).map toCachedFace).length =
        MAX_SAMPLES
      rw [List.length_map, List.length_take]
      exact min_eq_left hge

/-- A file system whose file `D` yields 100 detections (over the 96 cap). -/
def exFSBig : FS 1 :=
  { mediaFiles := ["D"]
    mtimes := [("D", 3)]
    detections := [("D", List.replicate 100 exS0)] }

/-- Witness for C9 on `exFSBig`: the stored entry for `D` is capped at
exactly 96 detections. -/
theorem scan_sample_cap_witness :
    ∃ m e, (scanFaces exFSBig none none).savedFiles = some m ∧
      lookupEntry m (normalizePath "D") = some e ∧
      e.faces.length = min MAX_SAMPLES (detectFacesInFile exFSBig "D").length ∧
      e.faces.length ≤ MAX_SAMPLES ∧
      (MAX_SAMPLES ≤ (detectFacesInFile exFSBig "D").length →
        e.faces.length = MAX_SAMPLES) :=
  scan_sample_cap exFSBig none none "D" (by simp [exFSBig])
    (by with_unfolding_all exact of_decide_eq_true rfl)

/-! ## Lemmas about the task-runner state machine -/

lemma clearQueue_get? (s : LimiterState) (i : Nat) :
    (clearQueue s).tasks.get? i =
      (s.tasks.get? i).map
        (fun t => if t = TaskStatus.queued then TaskStatus.skipped else t) := by
  simp [clearQueue, List.get?_map]

lemma clearQueue_cancelled (s : LimiterState) :
    (clearQueue s).cancelled = s.cancelled := rfl

lemma runNext_cancelled (s : LimiterState) :
    (runNext s).cancelled = s.cancelled := by
  unfold runNext
  by_cases hc : s.cancelled = true
  · rw [if_pos hc]
    rfl
  · rw [if_neg hc]
    by_cases ha : activeCount s < s.limit
    · rw [if_pos ha]
      cases s.tasks.findIdx? (fun t => t == TaskStatus.queued) <;> rfl
    · rw [if_neg ha]

lemma limiterStep_cancelled_mono (s : LimiterState) (e : LimiterEvent)
    (h : s.cancelled = true) : (limiterStep s e).cancelled = true := by
  cases e with
  | submit => simp [limiterStep, h]
  | abort => simp [limiterStep, clearQueue]
  | finish i =>
    by_cases hr : s.tasks.get? i = some TaskStatus.running
    · simp only [limiterStep, if_pos hr]
      rw [runNext_cancelled]
      exact h
    · simp only [limiterStep, if_neg hr]
      exact h

lemma clearQueue_not_queued (s : LimiterState) :
    TaskStatus.queued ∉ (clearQueue s).tasks := by
  intro hmem
  obtain ⟨t, -, ht⟩ := List.mem_map.mp hmem
  cases t <;> simp at ht

lemma runNext_get?_of_ne_queued (s : LimiterState) (i : Nat)
    (h : s.tasks.get? i ≠ some TaskStatus.queued) :
    (runNext s).tasks.get? i = s.tasks.get? i := by
  unfold runNext
  by_cases hc : s.cancelled = true
  · rw [if_pos hc, clearQueue_get?]
    cases hget : s.tasks.get? i with
    | none => rfl
    | some t =>
      cases t with
      | queued => exact absurd hget h
      | running => rfl
      | done => rfl
      | skipped => rfl
  · rw [if_neg hc]
    by_cases ha : activeCount s < s.limit
    · rw [if_pos ha]
      cases hidx : s.tasks.findIdx? (fun t => t == TaskStatus.queued) with
      | none => rfl
      | some j =>
        by_cases hij : i = j
        · subst hij
          obtain ⟨hjlt, hp, -⟩ :=
            List.findIdx?_eq_some_iff_getElem.mp hidx
          have : s.tasks.get? i = some TaskStatus.queued := by
            rw [List.get?_eq_getElem?, List.getElem?_eq_getElem hjlt]
            simpa [beq_iff_eq] using congrArg some (by simpa using hp)
          exact absurd this h
        · show (s.tasks.set j TaskStatus.running).get? i = s.tasks.get? i
          exact List.get?_set_ne _ _ (fun he => hij he.symm)
    · rw [if_neg ha]

lemma abort_resolves_queued (s : LimiterState) (i : Nat) :
    (limiterStep s LimiterEvent.abort).tasks.get? i =
      (s.tasks.get? i).map
        (fun t => if t = TaskStatus.queued then TaskStatus.skipped else t) := by
  simp only [limiterStep]
  exact clearQueue_get? _ i

lemma finish_completes (s : LimiterState) (i : Nat)
    (h : s.tasks.get? i = some TaskStatus.running) :
    (limiterStep s (LimiterEvent.finish i)).tasks.get? i =
      some TaskStatus.done := by
  simp only [limiterStep, if_pos h]
  have hlt : i < s.tasks.length := (List.get?_eq_some.mp h).1
  have hset : ({ s with tasks := s.tasks.set i TaskStatus.done } :
      LimiterState).tasks.get? i = some TaskStatus.done := by
    show (s.tasks.set i TaskStatus.done).get? i = some TaskStatus.done
    rw [List.get?_eq_getElem?]
    exact List.getElem?_set_self (by simpa using hlt)
  rw [runNext_get?_of_ne_queued _ i (by rw [hset]; simp), hset]

/-- The cancellation invariant: once the signal has fired, no task is left
in the queue — every formerly queued task has been resolved with the
skipped marker. -/
def QueueCleared (s : LimiterState) : Prop :=
  s.cancelled = true → TaskStatus.queued ∉ s.tasks

lemma QueueCleared_step (s : LimiterState) (e : LimiterEvent)
    (h : QueueCleared s) : QueueCleared (limiterStep s e) := by
  intro hcand
  cases e with
  | submit =>
    by_cases hc : s.cancelled = true
    · simp only [limiterStep, if_pos hc]
      intro hmem
      rcases List.mem_append.mp hmem with hm | hm
      · exact h hc hm
      · simp at hm
    · have hfalse : (limiterStep s LimiterEvent.submit).cancelled = false := by
        simp only [limiterStep, if_neg hc]
        rw [runNext_cancelled]
        simpa using hc
      rw [hcand] at hfalse
      cases hfalse
  | abort =>
    simp only [limiterStep]
    exact clearQueue_not_queued _
  | finish i =>
    by_cases hr : s.tasks.get? i = some TaskStatus.running
    · simp only [limiterStep, if_pos hr] at hcand ⊢
      rw [runNext_cancelled] at hcand
      unfold runNext
      rw [if_pos (show ({ s with tasks := s.tasks.set i TaskStatus.done } :
        LimiterState).cancelled = true from hcand)]
      exact clearQueue_not_queued _
    · simp only [limiterStep, if_neg hr] at hcand ⊢
      exact h hcand

lemma QueueCleared_foldl (es : List LimiterEvent) :
    ∀ s : LimiterState, QueueCleared s →
      QueueCleared (es.foldl limiterStep s) := by
  induction es with
  | nil => intro s h; exact h
  | cons e rest ih =>
    intro s h
    exact ih _ (QueueCleared_step s e h)

lemma not_new_running_step (s : LimiterState) (e : LimiterEvent) (i : Nat)
    (hc : s.cancelled = true)
    (h : (limiterStep s e).tasks.get? i = some TaskStatus.running) :
    s.tasks.get? i = some TaskStatus.running := by
  cases e with
  | submit =>
    simp only [limiterStep, if_pos hc] at h
    rcases lt_or_ge i s.tasks.length with hi | hi
    · rwa [List.get?_append hi] at h
    · rw [List.get?_append_right hi] at h
      have hne : ([TaskStatus.skipped].get? (i - s.tasks.length)) ≠
          some TaskStatus.running := by
        rcases i - s.tasks.length with _ | n <;> simp
      exact absurd h hne
  | abort =>
    rw [abort_resolves_queued] at h
    cases hget : s.tasks.get? i with
    | none => rw [hget] at h; cases h
    | some t =>
      rw [hget] at h
      cases t with
      | queued => simp at h
      | running => rfl
      | done => simp at h
      | skipped => simp at h
  | finish j =>
    by_cases hr : s.tasks.get? j = some TaskStatus.running
    · simp only [limiterStep, if_pos hr] at h
      rw [show runNext { s with tasks := s.tasks.set j TaskStatus.done } =
          clearQueue { s with tasks := s.tasks.set j TaskStatus.done } from by
        unfold runNext
        rw [if_pos (show ({ s with tasks := s.tasks.set j TaskStatus.done } :
          LimiterState).cancelled = true from hc)]] at h
      rw [clearQueue_get?] at h
      by_cases hij : i = j
      · subst hij
        have hlt : i < s.tasks.length := (List.get?_eq_some.mp hr).1
        have hset : (s.tasks.set i TaskStatus.done).get? i =
            some TaskStatus.done := by
          rw [List.get?_eq_getElem?]
          exact List.getElem?_set_self (by simpa using hlt)
        rw [show ({ s with tasks := s.tasks.set i TaskStatus.done } :
          LimiterState).tasks.get? i = some TaskStatus.done from hset] at h
        simp at h
      · have hset : (s.tasks.set j TaskStatus.done).get? i =
            s.tasks.get? i := List.get?_set_ne _ _ (fun he => hij he.symm)
        rw [show ({ s with tasks := s.tasks.set j TaskStatus.done } :
          LimiterState).tasks.get? i = s.tasks.get? i from hset] at h
        cases hget : s.tasks.get? i with
        | none => rw [hget] at h; cases h
        | some t =>
          rw [hget] at h
          cases t with
          | queued => simp at h
          | running => rfl
          | done => simp at h
          | skipped => simp at h
    · simp only [limiterStep, if_neg hr] at h
      exact h

lemma not_new_running_foldl (es : List LimiterEvent) :
    ∀ (s : LimiterState) (i : Nat), s.cancelled = true →
      ((es.foldl limiterStep s).tasks.get? i = some TaskStatus.running) →
      s.tasks.get? i = some TaskStatus.running := by
  induction es with
  | nil => intro s i _ h; exact h
  | cons e rest ih =>
    intro s i hc h
    exact not_new_running_step s e i hc
      (ih _ i (limiterStep_cancelled_mono s e hc) h)

/-! ## C6: cooperative cancellation of the task runner -/

/-- C6: in every reachable limiter state, (a) once the abort signal has
fired no task is left queued — the abort transition resolves exactly the
queued tasks to the skipped marker and leaves every other status
untouched; (b) a task that was running is driven to completion: its finish
event marks it done (this works even when cancelled, in-flight tasks are
never interrupted); and (c) after cancellation no task ever newly enters
the running status under any continuation of the event trace, so a
queued-but-not-started task is never started. -/
theorem limiter_cooperative_cancellation (limit : Nat)
    (es : List LimiterEvent) :
    ((limiterRun limit es).cancelled = true →
      TaskStatus.queued ∉ (limiterRun limit es).tasks) ∧
    (∀ i, (limiterStep (limiterRun limit es) LimiterEvent.abort).tasks.get? i =
      ((limiterRun limit es).tasks.get? i).map
        (fun t => if t = TaskStatus.queued then TaskStatus.skipped else t)) ∧
    (∀ i, (limiterRun limit es).tasks.get? i = some TaskStatus.running →
      (limiterStep (limiterRun limit es)
        (LimiterEvent.finish i)).tasks.get? i = some TaskStatus.done) ∧
    ((limiterRun limit es).cancelled = true →
      ∀ (es₂ : List LimiterEvent) (i : Nat),
        ((es₂.foldl limiterStep (limiterRun limit es)).tasks.get? i =
          some TaskStatus.running) →
        (limiterRun limit es).tasks.get? i = some TaskStatus.running) := by
  refine ⟨?_, ?_, ?_, ?_⟩
  · exact QueueCleared_foldl es (limiterInit limit)
      (by intro h; simp [limiterInit] at h)
  · intro i
    exact abort_resolves_queued _ i
  · intro i h
    exact finish_completes _ i h
  · intro hc es₂ i h
    exact not_new_running_foldl es₂ _ i hc h

/-- Witness for C6 on the concrete trace: two submissions under limit 1
(first runs, second queued), then the abort signal, then the first task
finishing. -/
theorem limiter_cooperative_cancellation_witness :
    ((limiterRun 1 [.submit, .submit, .abort]).cancelled = true →
      TaskStatus.queued ∉ (limiterRun 1 [.submit, .submit, .abort]).tasks) ∧
    (∀ i, (limiterStep (limiterRun 1 [.submit, .submit, .abort])
        LimiterEvent.abort).tasks.get? i =
      ((limiterRun 1 [.submit, .submit, .abort]).tasks.get? i).map
        (fun t => if t = TaskStatus.queued then TaskStatus.skipped else t)) ∧
    (∀ i, (limiterRun 1 [.submit, .submit, .abort]).tasks.get? i =
        some TaskStatus.running →
      (limiterStep (limiterRun 1 [.submit, .submit, .abort])
        (LimiterEvent.finish i)).tasks.get? i = some TaskStatus.done) ∧
    ((limiterRun 1 [.submit, .submit, .abort]).cancelled = true →
      ∀ (es₂ : List LimiterEvent) (i : Nat),
        ((es₂.foldl limiterStep
            (limiterRun 1 [.submit, .submit, .abort])).tasks.get? i =
          some TaskStatus.running) →
        (limiterRun 1 [.submit, .submit, .abort]).tasks.get? i =
          some TaskStatus.running) :=
  limiter_cooperative_cancellation 1 [.submit, .submit, .abort]

/-- Witness for C10 on a concrete two-cluster list. -/
theorem clustersToFaces_sorted_counts_witness :
    List.Pairwise (fun a b => b.count ≤ a.count)
      (clustersToFaces [newCluster exS0, newCluster exS2]) ∧
    (clustersToFaces [newCluster exS0, newCluster exS2]).Perm
      (([newCluster exS0, newCluster exS2].enum).map
        (fun p => mkFaceGroup p.1 p.2)) ∧
    ∀ g ∈ clustersToFaces [newCluster exS0, newCluster exS2],
      ∃ c ∈ [newCluster exS0, newCluster exS2],
        c.paths.Nodup ∧
        g.count = c.paths.length ∧
        g.paths = c.paths.take MAX_RESULTS_PER_FACE ∧
        g.paths.length ≤ MAX_RESULTS_PER_FACE ∧
        g.paths.length ≤ g.count :=
  clustersToFaces_sorted_counts [newCluster exS0, newCluster exS2]
    (by simp [newCluster, exS0, exS2])

end HebPhotoSort
